import Mathlib

/-!
# QCNS — Quantum Circuit and Network Simulator: verification of spec claims

Shallow embedding of the QCNS core (QuantumCircuit.js, QuantumSimulator.js
[src/unnamed/part_006], QuantumGates.js [README code block], ComplexMath.js,
QuantumNetwork.js) and proofs settling the frozen claims about the spec.

Modelling conventions:
* JS `{re, im}` complex records are modelled by Mathlib's `ℂ`; the arithmetic
  helpers of `ComplexMath` (`add`, `multiply`, `abs`, `exp`) are re-defined
  here with the exact component formulas the source uses.
* The gate grid `gates[wire][column]` is a `List (List (Option GateRec))`.
  JS gate records are compared by object identity; identity is modelled by a
  unique numeric `id` handed out by a counter (the source draws a fresh random
  17-character string per `addGate` call — the only property it relies on is
  freshness).
* JS `Map` iteration order is insertion order; `Map`s are modelled by lists
  kept in insertion order.
* Out-of-range array writes, which would throw `TypeError` in JS, are outside
  the domain exercised by every claim below; `List.set` is a no-op there.
-/

namespace QCNS

/-! ## ComplexMath.js — the arithmetic actually used by the simulator -/

/-- `ComplexMath.add`: componentwise sum, exactly as in the source. -/
noncomputable def cAdd (a b : ℂ) : ℂ := ⟨a.re + b.re, a.im + b.im⟩

/-- `ComplexMath.multiply`: `(re·re − im·im, re·im + im·re)`. -/
noncomputable def cMul (a b : ℂ) : ℂ :=
  ⟨a.re * b.re - a.im * b.im, a.re * b.im + a.im * b.re⟩

/-- `ComplexMath.abs`: `Math.sqrt(re·re + im·im)`. -/
noncomputable def cAbs (z : ℂ) : ℝ := Real.sqrt (z.re * z.re + z.im * z.im)

/-- `ComplexMath.exp`: the unit-circle exponential `cos θ + i sin θ`. -/
noncomputable def cExp (θ : ℝ) : ℂ := ⟨Real.cos θ, Real.sin θ⟩

theorem cAdd_eq (a b : ℂ) : cAdd a b = a + b := by
  simp [cAdd, Complex.ext_iff]

theorem cMul_eq (a b : ℂ) : cMul a b = a * b := by
  simp [cMul, Complex.ext_iff]

/-! ## Gate records, options, circuits (QuantumCircuit.js data model) -/

/-- The slots of the JS `options` object that the core ever reads:
`options.params.theta`, `options.params.lambda` (gate parameters) and
`options.creg.bit` (classical target of a `measure`; the register name is the
constant `"creg"` for circuits built from bit counts and is not modelled). -/
structure Options where
  theta : Option ℝ
  lambda : Option ℝ
  cregBit : Option Nat

/-- The empty `options` object (`{}`). -/
def Options.none : Options := ⟨Option.none, Option.none, Option.none⟩

/-- A placed gate record: `{name, id, options}`.  The JS grid stores one such
record shared by every wire/column cell the gate occupies. -/
structure GateRec where
  name : String
  id : Nat
  options : Options

/-- A circuit: register sizes plus the `gates[wire][column]` grid.  `nextId`
is the id counter standing in for `randomString()` (see module docstring). -/
structure Circuit where
  numQubits : Nat
  numClbits : Nat
  gates : List (List (Option GateRec))
  nextId : Nat

/-- `new QuantumCircuit(q, c)`: `q` empty wire rows. -/
def emptyCircuit (q c : Nat) : Circuit :=
  ⟨q, c, List.replicate q [], 0⟩

/-- `numCols()`: length of wire row 0, or 0 when there are no rows. -/
def numCols (c : Circuit) : Nat :=
  match c.gates with
  | [] => 0
  | r :: _ => r.length

/-- Grid cell access `gates[wire][col]`, `null`/absent cells read as `none`. -/
def cell (c : Circuit) (wire col : Nat) : Option GateRec :=
  ((c.gates.getD wire []).getD col Option.none)

/-- Does any of the wires `ws` hold a non-empty cell at `col`?  (The first
scan inside `lastNonEmptyPlace`'s loop body.) -/
def anyOnWires (c : Circuit) (ws : List Nat) (col : Nat) : Bool :=
  ws.any (fun w => (cell c w col).isSome)

/-- Does any wire of the whole circuit hold a non-empty cell at `col`?
(The second scan inside `lastNonEmptyPlace`'s loop body.) -/
def anyOnAll (c : Circuit) (col : Nat) : Bool :=
  (List.range c.numQubits).any (fun w => (cell c w col).isSome)

/-- The `while (col >= 1 && allEmpty)` loop of `lastNonEmptyPlace`, peeled
from the top column: decrement `col`, stop at `col` if a cell on one of the
gate's own wires is non-empty, stop at `col + 1` if a cell on any other wire
is non-empty, otherwise keep scanning down; return 0 if everything is empty. -/
def lastNonEmptyAux (c : Circuit) (ws : List Nat) : Nat → Nat
  | 0 => 0
  | col + 1 =>
    if anyOnWires c ws col then col
    else if anyOnAll c col then col + 1
    else lastNonEmptyAux c ws col

/-- `lastNonEmptyPlace(wires)` from QuantumCircuit.js. -/
def lastNonEmptyPlace (c : Circuit) (ws : List Nat) : Nat :=
  lastNonEmptyAux c ws (numCols c)

/-- The target-column computation at the head of `addGate`: append marker
(negative column) resolves to `lastNonEmptyPlace(wires) + 1`. -/
def targetColumnFor (c : Circuit) (column : Int) (ws : List Nat) : Nat :=
  if column < 0 then lastNonEmptyPlace c ws + 1 else column.toNat

/-- `while (gates[wire].length <= targetColumn) push(null)`. -/
def padRow (row : List (Option GateRec)) (len : Nat) : List (Option GateRec) :=
  row ++ List.replicate (len - row.length) Option.none

/-- `addGate(gateName, column, wires, options)`: resolve the target column,
null-pad every wire row up to it, create one fresh gate record, and write the
record into the target cell of each listed wire.  (The source performs no
validation of `wires` whatsoever: no range check and no duplicate check.) -/
def addGate (c : Circuit) (gateName : String) (column : Int) (wires : List Nat)
    (options : Options) : Circuit :=
  let targetColumn := targetColumnFor c column wires
  let padded := c.gates.map (fun row => padRow row (targetColumn + 1))
  let g : GateRec := ⟨gateName, c.nextId, options⟩
  let newGates := wires.foldl
    (fun rows w => rows.set w ((rows.getD w []).set targetColumn (Option.some g)))
    padded
  { c with gates := newGates, nextId := c.nextId + 1 }

/-! The chainable per-gate builder methods (each is `addGate(name, -1, …)`). -/

def Circuit.h (c : Circuit) (q : Nat) : Circuit := addGate c "h" (-1) [q] Options.none

def Circuit.x (c : Circuit) (q : Nat) : Circuit := addGate c "x" (-1) [q] Options.none

def Circuit.y (c : Circuit) (q : Nat) : Circuit := addGate c "y" (-1) [q] Options.none

def Circuit.sx (c : Circuit) (q : Nat) : Circuit := addGate c "sx" (-1) [q] Options.none

def Circuit.cx (c : Circuit) (control target : Nat) : Circuit :=
  addGate c "cx" (-1) [control, target] Options.none

def Circuit.cz (c : Circuit) (control target : Nat) : Circuit :=
  addGate c "cz" (-1) [control, target] Options.none

def Circuit.swap (c : Circuit) (q1 q2 : Nat) : Circuit :=
  addGate c "swap" (-1) [q1, q2] Options.none

def Circuit.ccx (c : Circuit) (c1 c2 t : Nat) : Circuit :=
  addGate c "ccx" (-1) [c1, c2, t] Options.none

def Circuit.rx (c : Circuit) (θ : ℝ) (q : Nat) : Circuit :=
  addGate c "rx" (-1) [q] ⟨Option.some θ, Option.none, Option.none⟩

def Circuit.ry (c : Circuit) (θ : ℝ) (q : Nat) : Circuit :=
  addGate c "ry" (-1) [q] ⟨Option.some θ, Option.none, Option.none⟩

def Circuit.rz (c : Circuit) (θ : ℝ) (q : Nat) : Circuit :=
  addGate c "rz" (-1) [q] ⟨Option.some θ, Option.none, Option.none⟩

def Circuit.s (c : Circuit) (q : Nat) : Circuit := addGate c "s" (-1) [q] Options.none

def Circuit.t (c : Circuit) (q : Nat) : Circuit := addGate c "t" (-1) [q] Options.none

def Circuit.z (c : Circuit) (q : Nat) : Circuit := addGate c "z" (-1) [q] Options.none

/-- `measure(qubit, cbit)` records a `measure` directive carrying the target
classical bit.  (The source first throws when the circuit has no classical
register or `cbit` is out of range; every claim below measures within range.) -/
def Circuit.measure (c : Circuit) (q cbit : Nat) : Circuit :=
  addGate c "measure" (-1) [q] ⟨Option.none, Option.none, Option.some cbit⟩

/-- `measure_all()`: `measure(i, i)` for each qubit in order. -/
def Circuit.measureAll (c : Circuit) : Circuit :=
  (List.range c.numQubits).foldl (fun acc i => acc.measure i i) c

/-! ## QuantumGates.js — symbolic gate matrices (README code block) -/

/-- One entry of a stored gate matrix: a literal number or a symbolic
expression string, exactly as in `getBasicGates()`. -/
inductive MatEntry where
  | num (n : Int)
  | expr (s : String)

/-- The `matrix` fields of `QuantumGates.getBasicGates()`, keyed by canonical
gate name; `none` for names without a matrix (`measure`, `barrier`) and for
unknown names (`getGate` throws on the latter before `.matrix` is read, and
the simulator filters the former out before matrix lookup, so the two cases
are never observed apart). -/
def gateLibraryMatrix : String → Option (List (List MatEntry))
  | "id" => some [[.num 1, .num 0], [.num 0, .num 1]]
  | "x" => some [[.num 0, .num 1], [.num 1, .num 0]]
  | "y" => some [[.num 0, .expr "-i"], [.expr "i", .num 0]]
  | "z" => some [[.num 1, .num 0], [.num 0, .num (-1)]]
  | "h" => some [[.expr "1/sqrt(2)", .expr "1/sqrt(2)"],
                 [.expr "1/sqrt(2)", .expr "-1/sqrt(2)"]]
  | "s" => some [[.num 1, .num 0], [.num 0, .expr "i"]]
  | "t" => some [[.num 1, .num 0], [.num 0, .expr "e^(i * pi / 4)"]]
  | "sdg" => some [[.num 1, .num 0], [.num 0, .expr "-i"]]
  | "tdg" => some [[.num 1, .num 0], [.num 0, .expr "e^(-i * pi / 4)"]]
  | "rx" => some [[.expr "cos(theta/2)", .expr "-i*sin(theta/2)"],
                  [.expr "-i*sin(theta/2)", .expr "cos(theta/2)"]]
  | "ry" => some [[.expr "cos(theta/2)", .expr "-sin(theta/2)"],
                  [.expr "sin(theta/2)", .expr "cos(theta/2)"]]
  | "rz" => some [[.expr "e^(-i*theta/2)", .num 0], [.num 0, .expr "e^(i*theta/2)"]]
  | "u1" => some [[.num 1, .num 0], [.num 0, .expr "e^(i*lambda)"]]
  | "u2" => some [[.expr "1/sqrt(2)", .expr "-e^(i*lambda)/sqrt(2)"],
                  [.expr "e^(i*phi)/sqrt(2)", .expr "e^(i*(phi+lambda))/sqrt(2)"]]
  | "u3" => some [[.expr "cos(theta/2)", .expr "-e^(i*lambda)*sin(theta/2)"],
                  [.expr "e^(i*phi)*sin(theta/2)", .expr "e^(i*(phi+lambda))*cos(theta/2)"]]
  | "cx" => some [[.num 1, .num 0, .num 0, .num 0],
                  [.num 0, .num 1, .num 0, .num 0],
                  [.num 0, .num 0, .num 0, .num 1],
                  [.num 0, .num 0, .num 1, .num 0]]
  | "cy" => some [[.num 1, .num 0, .num 0, .num 0],
                  [.num 0, .num 1, .num 0, .num 0],
                  [.num 0, .num 0, .num 0, .expr "-i"],
                  [.num 0, .num 0, .expr "i", .num 0]]
  | "cz" => some [[.num 1, .num 0, .num 0, .num 0],
                  [.num 0, .num 1, .num 0, .num 0],
                  [.num 0, .num 0, .num 1, .num 0],
                  [.num 0, .num 0, .num 0, .num (-1)]]
  | "ch" => some [[.num 1, .num 0, .num 0, .num 0],
                  [.num 0, .num 1, .num 0, .num 0],
                  [.num 0, .num 0, .expr "1/sqrt(2)", .expr "1/sqrt(2)"],
                  [.num 0, .num 0, .expr "1/sqrt(2)", .expr "-1/sqrt(2)"]]
  | "swap" => some [[.num 1, .num 0, .num 0, .num 0],
                    [.num 0, .num 0, .num 1, .num 0],
                    [.num 0, .num 1, .num 0, .num 0],
                    [.num 0, .num 0, .num 0, .num 1]]
  | "iswap" => some [[.num 1, .num 0, .num 0, .num 0],
                     [.num 0, .num 0, .expr "i", .num 0],
                     [.num 0, .expr "i", .num 0, .num 0],
                     [.num 0, .num 0, .num 0, .num 1]]
  | "ccx" => some [[.num 1, .num 0, .num 0, .num 0, .num 0, .num 0, .num 0, .num 0],
                   [.num 0, .num 1, .num 0, .num 0, .num 0, .num 0, .num 0, .num 0],
                   [.num 0, .num 0, .num 1, .num 0, .num 0, .num 0, .num 0, .num 0],
                   [.num 0, .num 0, .num 0, .num 1, .num 0, .num 0, .num 0, .num 0],
                   [.num 0, .num 0, .num 0, .num 0, .num 1, .num 0, .num 0, .num 0],
                   [.num 0, .num 0, .num 0, .num 0, .num 0, .num 1, .num 0, .num 0],
                   [.num 0, .num 0, .num 0, .num 0, .num 0, .num 0, .num 0, .num 1],
                   [.num 0, .num 0, .num 0, .num 0, .num 0, .num 0, .num 1, .num 0]]
  | "cswap" => some [[.num 1, .num 0, .num 0, .num 0, .num 0, .num 0, .num 0, .num 0],
                     [.num 0, .num 1, .num 0, .num 0, .num 0, .num 0, .num 0, .num 0],
                     [.num 0, .num 0, .num 1, .num 0, .num 0, .num 0, .num 0, .num 0],
                     [.num 0, .num 0, .num 0, .num 1, .num 0, .num 0, .num 0, .num 0],
                     [.num 0, .num 0, .num 0, .num 0, .num 1, .num 0, .num 0, .num 0],
                     [.num 0, .num 0, .num 0, .num 0, .num 0, .num 0, .num 1, .num 0],
                     [.num 0, .num 0, .num 0, .num 0, .num 0, .num 1, .num 0, .num 0],
                     [.num 0, .num 0, .num 0, .num 0, .num 0, .num 0, .num 0, .num 1]]
  | "sx" => some [[.expr "(1+i)/2", .expr "(1-i)/2"], [.expr "(1-i)/2", .expr "(1+i)/2"]]
  | "p" => some [[.num 1, .num 0], [.num 0, .expr "e^(i*lambda)"]]
  | "phase" => some [[.num 1, .num 0], [.num 0, .expr "e^(i*lambda)"]]
  | "cp" => some [[.num 1, .num 0, .num 0, .num 0],
                  [.num 0, .num 1, .num 0, .num 0],
                  [.num 0, .num 0, .num 1, .num 0],
                  [.num 0, .num 0, .num 0, .expr "e^(i*lambda)"]]
  | "crx" => some [[.num 1, .num 0, .num 0, .num 0],
                   [.num 0, .num 1, .num 0, .num 0],
                   [.num 0, .num 0, .expr "cos(theta/2)", .expr "-i*sin(theta/2)"],
                   [.num 0, .num 0, .expr "-i*sin(theta/2)", .expr "cos(theta/2)"]]
  | "cry" => some [[.num 1, .num 0, .num 0, .num 0],
                   [.num 0, .num 1, .num 0, .num 0],
                   [.num 0, .num 0, .expr "cos(theta/2)", .expr "-sin(theta/2)"],
                   [.num 0, .num 0, .expr "sin(theta/2)", .expr "cos(theta/2)"]]
  | "crz" => some [[.num 1, .num 0, .num 0, .num 0],
                   [.num 0, .num 1, .num 0, .num 0],
                   [.num 0, .num 0, .expr "e^(-i*theta/2)", .num 0],
                   [.num 0, .num 0, .num 0, .expr "e^(i*theta/2)"]]
  | "cu" => some [[.num 1, .num 0, .num 0, .num 0],
                  [.num 0, .num 1, .num 0, .num 0],
                  [.num 0, .num 0, .expr "cos(theta/2)", .expr "-e^(i*lambda)*sin(theta/2)"],
                  [.num 0, .num 0, .expr "e^(i*phi)*sin(theta/2)",
                   .expr "e^(i*(phi+lambda))*cos(theta/2)"]]
  | _ => Option.none

/-! ## QuantumSimulator.evaluateMatrixElement — the expression catalogue -/

/-- JS `String.prototype.includes`, on character lists: does `pat` occur as a
contiguous substring? -/
def charsContain (l pat : List Char) : Bool :=
  match l with
  | [] => pat.isEmpty
  | _ :: tl => pat.isPrefixOf l || charsContain tl pat

/-- `expr.includes(pat)`. -/
def strIncludes (s pat : String) : Bool := charsContain s.data pat.data

/-- `evaluateMatrixElement(expr, params)` from QuantumSimulator.js: a fixed
catalogue of expression strings (exact match against the substitution table,
then the `theta`, `lambda` and `pi` families), and — crucially for claims C3
and C5 — a final branch that warns on the console and RETURNS `complex(1, 0)`
for every expression not in the catalogue.  The function has no failure path.
`params.theta || 0` / `params.lambda || 0` are `Option.getD _ 0`. -/
noncomputable def evaluateMatrixElement (expr : String) (params : Options) : ℂ :=
  let theta : ℝ := params.theta.getD 0
  let lambda : ℝ := params.lambda.getD 0
  let piRest : ℂ :=
    if expr = "e^(i * pi / 4)" then cExp (Real.pi / 4)
    else if expr = "e^(-i * pi / 4)" then cExp (-(Real.pi / 4))
    else if expr = "e^(i * pi / 2)" then cExp (Real.pi / 2)
    else if expr = "e^(-i * pi / 2)" then cExp (-(Real.pi / 2))
    else ⟨1, 0⟩
  let lambdaRest : ℂ :=
    if strIncludes expr "lambda" then
      if expr = "e^(i*lambda)" then cExp lambda else piRest
    else piRest
  let thetaRest : ℂ :=
    if strIncludes expr "theta" then
      if expr = "e^(-i*theta/2)" then cExp (-theta / 2)
      else if expr = "e^(i*theta/2)" then cExp (theta / 2)
      else lambdaRest
    else lambdaRest
  if expr = "i" then ⟨0, 1⟩
  else if expr = "-i" then ⟨0, -1⟩
  else if expr = "1/sqrt(2)" then ⟨1 / Real.sqrt 2, 0⟩
  else if expr = "-1/sqrt(2)" then ⟨-(1 / Real.sqrt 2), 0⟩
  else if expr = "cos(theta/2)" then ⟨Real.cos (theta / 2), 0⟩
  else if expr = "sin(theta/2)" then ⟨Real.sin (theta / 2), 0⟩
  else if expr = "-sin(theta/2)" then ⟨-Real.sin (theta / 2), 0⟩
  else if expr = "-i*sin(theta/2)" then ⟨0, -Real.sin (theta / 2)⟩
  else thetaRest

/-- `parseGateMatrix` entry conversion: numbers become `complex(n, 0)`,
strings go through `evaluateMatrixElement`. -/
noncomputable def parseEntry (e : MatEntry) (params : Options) : ℂ :=
  match e with
  | .num n => ⟨(n : ℝ), 0⟩
  | .expr s => evaluateMatrixElement s params

/-- `parseGateMatrix(matrix, params)`. -/
noncomputable def parseGateMatrix (m : List (List MatEntry)) (params : Options) :
    List (List ℂ) :=
  m.map (fun row => row.map (fun e => parseEntry e params))

/-- Matrix element read `m[i][j]` (always in range in the source). -/
noncomputable def mAt (m : List (List ℂ)) (i j : Nat) : ℂ :=
  (m.getD i []).getD j 0

/-! ## QuantumSimulator.js — state-vector evolution -/

/-- JS 32-bit `state & ~(1 << q)`: clear bit `q` (states stay below 2^32). -/
def clearBit (s q : Nat) : Nat := s &&& ((2 ^ 32 - 1) ^^^ (1 <<< q))

/-- `applySingleQubitGate(stateVector, gateMatrix, targetQubit, numQubits)`:
for each basis state, recombine the pair of amplitudes that differ in the
target bit through the 2×2 matrix, writing
`m[0][b]·(amp with b=0 slot) + m[1][b]·(amp with b=1 slot)` exactly as the
source's ternary expressions do.  (The `numQubits` parameter of the source is
unused there and omitted here.) -/
noncomputable def applySingleQubitGate (sv : List ℂ) (m : List (List ℂ))
    (targetQubit : Nat) : List ℂ :=
  (List.range sv.length).map (fun state =>
    let targetBit := (state >>> targetQubit) % 2
    let flippedState := state ^^^ (1 <<< targetQubit)
    let cur := sv.getD state 0
    let flip := sv.getD flippedState 0
    cAdd (cMul (mAt m 0 targetBit) (if targetBit = 0 then cur else flip))
         (cMul (mAt m 1 targetBit) (if targetBit = 0 then flip else cur)))

/-- `applyTwoQubitGate(stateVector, gateMatrix, qubit1, qubit2, numQubits)`:
zero-initialise the output, then for every input state scatter its amplitude
through column `basisIndex = (bit1 << 1) | bit2` of the 4×4 matrix into the
four states obtained by rewriting the two gate bits. -/
noncomputable def applyTwoQubitGate (sv : List ℂ) (m : List (List ℂ))
    (qubit1 qubit2 : Nat) : List ℂ :=
  (List.range sv.length).foldl (fun new state =>
    let bit1 := (state >>> qubit1) % 2
    let bit2 := (state >>> qubit2) % 2
    let basisIndex := (bit1 <<< 1) ||| bit2
    (List.range 4).foldl (fun new newBasisIndex =>
      let newBit1 := (newBasisIndex >>> 1) % 2
      let newBit2 := newBasisIndex % 2
      let newState := (clearBit (clearBit state qubit1) qubit2)
        ||| (newBit1 <<< qubit1) ||| (newBit2 <<< qubit2)
      let contribution := cMul (mAt m newBasisIndex basisIndex) (sv.getD state 0)
      new.set newState (cAdd (new.getD newState 0) contribution)) new)
    (List.replicate sv.length (0 : ℂ))

/-- The loop body of `applyThreeQubitGate`: if both control bits of `state`
are 1, swap the array's amplitudes at `state` and at `state` with the target
bit flipped (the JS destructuring swap); otherwise leave the array alone. -/
noncomputable def toffoliStep (control1 control2 target : Nat) (new : List ℂ)
    (state : Nat) : List ℂ :=
  let bit1 := (state >>> control1) % 2
  let bit2 := (state >>> control2) % 2
  if bit1 = 1 ∧ bit2 = 1 then
    let flippedState := state ^^^ (1 <<< target)
    let a := new.getD state 0
    let b := new.getD flippedState 0
    (new.set state b).set flippedState a
  else new

/-- `applyThreeQubitGate(stateVector, gateMatrix, qubits, numQubits)`: the
source special-cases Toffoli semantics — it copies the state vector and runs
`toffoliStep` for every state in ascending order.  The `gateMatrix` argument
is received but never read (mirrored here), and no matrix arithmetic happens
on this path. -/
noncomputable def applyThreeQubitGate (sv : List ℂ) (gateMatrix : List (List ℂ))
    (qubits : List Nat) : List ℂ :=
  let control1 := qubits.getD 0 0
  let control2 := qubits.getD 1 0
  let target := qubits.getD 2 0
  let _ := gateMatrix
  (List.range sv.length).foldl (toffoliStep control1 control2 target) sv

/-- `getGatesAtColumn(circuit, column)`: the distinct gate records found in a
column, scanning wires top to bottom and de-duplicating by gate id. -/
def getGatesAtColumn (c : Circuit) (col : Nat) : List GateRec :=
  (List.range c.numQubits).foldl (fun acc wire =>
    match cell c wire col with
    | Option.some g => if acc.any (fun g' => g'.id = g.id) then acc else acc ++ [g]
    | Option.none => acc) []

/-- `findGateWires(circuit, gate)`: the wires holding a cell that references
this record (reference equality ≙ id equality), in ascending order (the
source's trailing numeric sort is a no-op on the ascending scan order). -/
def findGateWires (c : Circuit) (g : GateRec) : List Nat :=
  (List.range c.numQubits).filter (fun wire =>
    (List.range (numCols c)).any (fun col =>
      match cell c wire col with
      | Option.some g' => g'.id = g.id
      | Option.none => false))

/-- `getGateMatrix(gate)`: library lookup (`getGate` throws on an unknown
name, modelled by `none`) followed by `parseGateMatrix`. -/
noncomputable def getGateMatrix (g : GateRec) : Option (List (List ℂ)) :=
  (gateLibraryMatrix g.name).map (fun m => parseGateMatrix m g.options)

/-- `applyGate(stateVector, gate, circuit, numQubits)`: dispatch on the number
of wires the gate occupies; `none` models the throws for an unknown gate name
and for an unsupported (0 or ≥ 4) wire count. -/
noncomputable def applyGate (sv : List ℂ) (g : GateRec) (c : Circuit) :
    Option (List ℂ) :=
  let gateWires := findGateWires c g
  match getGateMatrix g with
  | Option.none => Option.none
  | Option.some m =>
    match gateWires with
    | [w] => Option.some (applySingleQubitGate sv m w)
    | [w1, w2] => Option.some (applyTwoQubitGate sv m w1 w2)
    | [w1, w2, w3] => Option.some (applyThreeQubitGate sv m [w1, w2, w3])
    | _ => Option.none

/-- The initial state vector `|0…0⟩`: amplitude 1 at index 0. -/
noncomputable def initStateVector (n : Nat) : List ℂ :=
  (List.range (1 <<< n)).map (fun i => if i = 0 then (1 : ℂ) else 0)

/-- The Evolve phase of `simulate(circuit)`: fold the columns left to right,
applying every non-`measure`/non-`barrier` gate of each column once. -/
noncomputable def evolve (c : Circuit) : Option (List ℂ) :=
  (List.range (numCols c)).foldl (fun osv col =>
    (getGatesAtColumn c col).foldl (fun osv g =>
      osv.bind (fun sv =>
        if g.name ≠ "measure" ∧ g.name ≠ "barrier" then applyGate sv g c
        else Option.some sv)) osv)
    (Option.some (initStateVector c.numQubits))

/-- `calculateProbabilities(stateVector)`: `|amplitude|` then squared, via
`ComplexMath.abs`. -/
noncomputable def calculateProbabilities (sv : List ℂ) : List ℝ :=
  sv.map (fun amplitude => cAbs amplitude * cAbs amplitude)

/-- The `probabilities` field of `run()` / `simulate()`'s result. -/
noncomputable def runProbabilities (c : Circuit) : Option (List ℝ) :=
  (evolve c).map calculateProbabilities

/-! ## Symbolic evaluation lemmas for the gate-application kernels

These unfold the loops of `applySingleQubitGate` / `applyTwoQubitGate` on
state vectors of concrete length with matrix entries left symbolic; they are
proved by pure kernel reduction. -/

theorem applySingle2_eval (m00 m01 m10 m11 a b : ℂ) :
    applySingleQubitGate [a, b] [[m00, m01], [m10, m11]] 0 =
      [cAdd (cMul m00 a) (cMul m10 b), cAdd (cMul m01 a) (cMul m11 b)] := by
  show (List.range 2).map _ = _
  rfl

theorem applySingle4q0_eval (m00 m01 m10 m11 a b c d : ℂ) :
    applySingleQubitGate [a, b, c, d] [[m00, m01], [m10, m11]] 0 =
      [cAdd (cMul m00 a) (cMul m10 b), cAdd (cMul m01 a) (cMul m11 b),
       cAdd (cMul m00 c) (cMul m10 d), cAdd (cMul m01 c) (cMul m11 d)] := by
  show (List.range 4).map _ = _
  rfl

set_option maxHeartbeats 3200000 in
theorem applyTwo4_eval
    (m00 m01 m02 m03 m10 m11 m12 m13 m20 m21 m22 m23 m30 m31 m32 m33 a b c d : ℂ) :
    applyTwoQubitGate [a, b, c, d]
      [[m00, m01, m02, m03], [m10, m11, m12, m13],
       [m20, m21, m22, m23], [m30, m31, m32, m33]] 0 1 =
      [cAdd (cAdd (cAdd (cAdd 0 (cMul m00 a)) (cMul m02 b)) (cMul m01 c)) (cMul m03 d),
       cAdd (cAdd (cAdd (cAdd 0 (cMul m20 a)) (cMul m22 b)) (cMul m21 c)) (cMul m23 d),
       cAdd (cAdd (cAdd (cAdd 0 (cMul m10 a)) (cMul m12 b)) (cMul m11 c)) (cMul m13 d),
       cAdd (cAdd (cAdd (cAdd 0 (cMul m30 a)) (cMul m32 b)) (cMul m31 c)) (cMul m33 d)] := by
  show (List.range 4).foldl _ (List.replicate 4 (0 : ℂ)) = _
  rfl

/-! ## Concrete circuits and parsed matrices used by the claims -/

/-- `Circuit(2,2).h(0).cx(0,1).measure_all()` — the Bell test circuit. -/
noncomputable def bellCircuit : Circuit :=
  (((emptyCircuit 2 2).h 0).cx 0 1).measureAll

/-- `Circuit(1,0).sx(0)` — a single `sx` gate, whose library matrix consists
entirely of expression strings missing from the evaluation catalogue. -/
noncomputable def sxCircuit : Circuit := (emptyCircuit 1 0).sx 0

/-- `1/Math.sqrt(2)` as it appears in the substitution table. -/
noncomputable def invSqrt2 : ℝ := 1 / Real.sqrt 2

/-- The parsed (complex-valued) Hadamard matrix. -/
noncomputable def hMatC : List (List ℂ) :=
  parseGateMatrix ((gateLibraryMatrix "h").getD []) Options.none

/-- The parsed CNOT matrix. -/
noncomputable def cxMatC : List (List ℂ) :=
  parseGateMatrix ((gateLibraryMatrix "cx").getD []) Options.none

/-- The parsed Pauli-Y matrix `[[0, -i], [i, 0]]`. -/
noncomputable def yMatC : List (List ℂ) :=
  parseGateMatrix ((gateLibraryMatrix "y").getD []) Options.none

/-- The parsed `sx` matrix: every entry is an out-of-catalogue expression, so
every entry parses to the silent default `1`. -/
noncomputable def sxMatC : List (List ℂ) :=
  parseGateMatrix ((gateLibraryMatrix "sx").getD []) Options.none

theorem hMatC_eq : hMatC =
    [[⟨invSqrt2, 0⟩, ⟨invSqrt2, 0⟩], [⟨invSqrt2, 0⟩, ⟨-invSqrt2, 0⟩]] := rfl

theorem sxMatC_eq : sxMatC = [[⟨1, 0⟩, ⟨1, 0⟩], [⟨1, 0⟩, ⟨1, 0⟩]] := rfl

theorem evalMatElem_i (o : Options) : evaluateMatrixElement "i" o = ⟨0, 1⟩ := rfl

theorem evalMatElem_neg_i (o : Options) : evaluateMatrixElement "-i" o = ⟨0, -1⟩ := rfl

theorem yMatC_eq : yMatC = [[⟨0, 0⟩, ⟨0, -1⟩], [⟨0, 1⟩, ⟨0, 0⟩]] := by
  show parseGateMatrix _ _ = _
  norm_num [parseGateMatrix, parseEntry, gateLibraryMatrix, evalMatElem_i,
    evalMatElem_neg_i]

theorem cxMatC_eq : cxMatC =
    [[⟨1, 0⟩, ⟨0, 0⟩, ⟨0, 0⟩, ⟨0, 0⟩], [⟨0, 0⟩, ⟨1, 0⟩, ⟨0, 0⟩, ⟨0, 0⟩],
     [⟨0, 0⟩, ⟨0, 0⟩, ⟨0, 0⟩, ⟨1, 0⟩], [⟨0, 0⟩, ⟨0, 0⟩, ⟨1, 0⟩, ⟨0, 0⟩]] := by
  show parseGateMatrix _ _ = _
  norm_num [parseGateMatrix, parseEntry, gateLibraryMatrix, Complex.ext_iff]

set_option maxHeartbeats 3200000 in
theorem bell_evolve_step : evolve bellCircuit =
    Option.some (applyTwoQubitGate
      (applySingleQubitGate [1, 0, 0, 0] hMatC 0) cxMatC 0 1) := rfl

theorem bell_after_h : applySingleQubitGate [1, 0, 0, 0] hMatC 0 =
    [⟨invSqrt2, 0⟩, ⟨invSqrt2, 0⟩, 0, 0] := by
  rw [hMatC_eq, applySingle4q0_eval]
  norm_num [cAdd, cMul, Complex.ext_iff]

theorem bell_after_cx :
    applyTwoQubitGate [⟨invSqrt2, 0⟩, ⟨invSqrt2, 0⟩, 0, 0] cxMatC 0 1 =
      [⟨invSqrt2, 0⟩, 0, 0, ⟨invSqrt2, 0⟩] := by
  rw [cxMatC_eq, applyTwo4_eval]
  norm_num [cAdd, cMul, Complex.ext_iff]

theorem invSqrt2_mul_self : invSqrt2 * invSqrt2 = 1 / 2 := by
  rw [invSqrt2, div_mul_div_comm, one_mul, Real.mul_self_sqrt (by norm_num : (0:ℝ) ≤ 2)]

theorem bell_probabilities_eval :
    calculateProbabilities [⟨invSqrt2, 0⟩, 0, 0, ⟨invSqrt2, 0⟩] =
      [1 / 2, 0, 0, 1 / 2] := by
  have habs : cAbs ⟨invSqrt2, 0⟩ * cAbs ⟨invSqrt2, 0⟩ = 1 / 2 := by
    rw [cAbs, Real.mul_self_sqrt (by nlinarith [mul_self_nonneg invSqrt2])]
    simpa using invSqrt2_mul_self
  have hzero : cAbs 0 * cAbs 0 = 0 := by
    norm_num [cAbs]
  simp [calculateProbabilities, habs, hzero]

theorem bell_evolve_eval : evolve bellCircuit =
    Option.some [⟨invSqrt2, 0⟩, 0, 0, ⟨invSqrt2, 0⟩] := by
  rw [bell_evolve_step, bell_after_h, bell_after_cx]

/-- C1: for `Circuit(2,2).h(0).cx(0,1).measure_all()`, `run()` reports
probability 0.5 (within 0.01) for basis states `00` (index 0) and `11`
(index 3), and ≈ 0 (here: exactly 0) for basis states `01` and `10`. -/
theorem C1_bell_run_probabilities :
    ∃ ps : List ℝ, runProbabilities bellCircuit = Option.some ps ∧
      ps.length = 4 ∧
      |ps.getD 0 0 - 0.5| ≤ 0.01 ∧ |ps.getD 3 0 - 0.5| ≤ 0.01 ∧
      |ps.getD 1 0| ≤ 0.01 ∧ |ps.getD 2 0| ≤ 0.01 := by
  refine ⟨[1 / 2, 0, 0, 1 / 2], ?_, by norm_num, ?_, ?_, ?_, ?_⟩
  · rw [runProbabilities, bell_evolve_eval]
    simp only [Option.map]
    rw [bell_probabilities_eval]
  all_goals norm_num

/-- C3: the claim demands a hard `UnknownExpression` failure for every
expression outside the catalogue; the source instead warns on the console and
silently substitutes `complex(1, 0)`.  Evaluated here at `"(1+i)/2"` — an
out-of-catalogue expression that actually occurs, in the library's `sx`
matrix — for every parameter set: the function returns the default 1 and has
no failure path at all. -/
theorem C3_unknown_expression_silent_default :
    ∀ o : Options, evaluateMatrixElement "(1+i)/2" o = ⟨1, 0⟩ := fun _ => rfl

theorem sx_evolve_step : evolve sxCircuit =
    Option.some (applySingleQubitGate [1, 0] sxMatC 0) := rfl

/-- C5: the claim says `run()` probabilities always sum to 1 within 1e-9; for
`Circuit(1,0).sx(0)` — built from the public `sx` gate method — every entry
of the gate matrix silently defaults to 1 (see C3), the evolved state is
`[1, 1]`, and the probabilities sum to 2. -/
theorem C5_probability_sum_two_for_sx :
    ∃ s : ℝ, (runProbabilities sxCircuit).map List.sum = Option.some s ∧
      s = 2 ∧ ¬ |s - 1| ≤ 1e-9 := by
  refine ⟨2, ?_, rfl, by norm_num⟩
  rw [runProbabilities, sx_evolve_step]
  simp only [Option.map]
  rw [sxMatC_eq, applySingle2_eval]
  have h1 : cAdd (cMul ⟨1, 0⟩ 1) (cMul ⟨1, 0⟩ 0) = ⟨1, 0⟩ := by
    norm_num [cAdd, cMul, Complex.ext_iff]
  rw [h1]
  have h2 : cAbs ⟨1, 0⟩ * cAbs ⟨1, 0⟩ = 1 := by
    rw [cAbs]
    norm_num
  norm_num [calculateProbabilities, h2]

/-! ## C10: the single-qubit kernel applies the transpose of the matrix -/

/-- The transpose of a 2×2 matrix. -/
noncomputable def transpose2 (m : List (List ℂ)) : List (List ℂ) :=
  [[mAt m 0 0, mAt m 1 0], [mAt m 0 1, mAt m 1 1]]

/-- Following the spec's words for C10: the standard (mathematical) action of
a 2×2 matrix `M` on qubit `q` of a state vector — the new amplitude at a
basis state whose target bit is `b` is
`M[b][0]·(amplitude with target bit 0) + M[b][1]·(amplitude with target bit 1)`.
To be compared with `applySingleQubitGate`, which the claim says computes the
action of `Mᵀ` instead. -/
noncomputable def applySingleQubitGateStd (sv : List ℂ) (m : List (List ℂ))
    (q : Nat) : List ℂ :=
  (List.range sv.length).map (fun state =>
    let b := (state >>> q) % 2
    let s0 := if (state >>> q) % 2 = 0 then state else state ^^^ (1 <<< q)
    let s1 := if (state >>> q) % 2 = 1 then state else state ^^^ (1 <<< q)
    cAdd (cMul (mAt m b 0) (sv.getD s0 0)) (cMul (mAt m b 1) (sv.getD s1 0)))

theorem applySingleStd2_eval (m00 m01 m10 m11 a b : ℂ) :
    applySingleQubitGateStd [a, b] [[m00, m01], [m10, m11]] 0 =
      [cAdd (cMul m00 a) (cMul m01 b), cAdd (cMul m10 a) (cMul m11 b)] := by
  show (List.range 2).map _ = _
  rfl

theorem applySingle_eq_std_transpose (sv : List ℂ) (m : List (List ℂ)) (q : Nat) :
    applySingleQubitGate sv m q = applySingleQubitGateStd sv (transpose2 m) q := by
  apply List.map_congr_left
  intro s _
  rcases Nat.mod_two_eq_zero_or_one (s >>> q) with h | h <;>
    simp [h, transpose2, mAt]

/-- C10: `applySingleQubitGate` computes the action of `Mᵀ` (first conjunct);
this coincides with applying `M` itself exactly for symmetric matrices
(second conjunct), but differs for the asymmetric `y` matrix: on input
`|0⟩` the code produces amplitude `−i` at index 1 where applying `M = Y`
itself produces `+i` (third conjunct). -/
theorem C10_single_qubit_gate_is_transpose_action :
    (∀ (sv : List ℂ) (m : List (List ℂ)) (q : Nat),
        applySingleQubitGate sv m q = applySingleQubitGateStd sv (transpose2 m) q) ∧
    (∀ (sv : List ℂ) (m : List (List ℂ)) (q : Nat), mAt m 0 1 = mAt m 1 0 →
        applySingleQubitGate sv m q = applySingleQubitGateStd sv m q) ∧
    applySingleQubitGate [1, 0] yMatC 0 ≠ applySingleQubitGateStd [1, 0] yMatC 0 := by
  refine ⟨applySingle_eq_std_transpose, ?_, ?_⟩
  · intro sv m q hsym
    simp only [mAt, List.getD_eq_getElem?_getD] at hsym
    rw [applySingle_eq_std_transpose]
    apply List.map_congr_left
    intro s _
    rcases Nat.mod_two_eq_zero_or_one (s >>> q) with h | h <;>
      simp [h, transpose2, mAt, hsym]
  · rw [yMatC_eq, applySingle2_eval, applySingleStd2_eval]
    intro h
    have h1 := congrArg (fun l => (List.getD l 1 0).im) h
    norm_num [cAdd, cMul] at h1

/-- Witness for C10: the transpose characterization at the parsed `y` matrix
on `|0⟩`, the symmetric-matrix agreement at the (symmetric) parsed Hadamard
matrix — its symmetry hypothesis discharged by computation — and the `y`
disagreement, all at concrete inputs. -/
theorem C10_single_qubit_gate_is_transpose_action_witness :
    (applySingleQubitGate [1, 0] yMatC 0 =
      applySingleQubitGateStd [1, 0] (transpose2 yMatC) 0) ∧
    (applySingleQubitGate [1, 0] hMatC 0 = applySingleQubitGateStd [1, 0] hMatC 0) ∧
    applySingleQubitGate [1, 0] yMatC 0 ≠ applySingleQubitGateStd [1, 0] yMatC 0 :=
  ⟨C10_single_qubit_gate_is_transpose_action.1 [1, 0] yMatC 0,
   C10_single_qubit_gate_is_transpose_action.2.1 [1, 0] hMatC 0
     (by rw [hMatC_eq]; rfl),
   C10_single_qubit_gate_is_transpose_action.2.2⟩

/-! ## C2: the three-qubit (Toffoli) path is a no-op

The loop iterates over every basis state and swaps the pair
`{state, state ^ (1 << target)}` whenever both control bits of `state` are 1.
Since the swap condition does not involve the target bit, both members of a
swapped pair satisfy it, so each pair is swapped twice — once when the scan
reaches each member — and the array ends up exactly where it started. -/

/-- Both control bits of `i` are set: the loop's swap condition. -/
def swapCond (c1 c2 i : Nat) : Prop := (i >>> c1) % 2 = 1 ∧ (i >>> c2) % 2 = 1

instance (c1 c2 i : Nat) : Decidable (swapCond c1 c2 i) := by
  unfold swapCond; infer_instance

theorem toffoliStep_eq (c1 c2 t : Nat) (new : List ℂ) (state : Nat) :
    toffoliStep c1 c2 t new state =
      if swapCond c1 c2 state then
        (new.set state (new.getD (state ^^^ (1 <<< t)) 0)).set
          (state ^^^ (1 <<< t)) (new.getD state 0)
      else new := rfl

theorem shift_mod_two (i c : Nat) : (i >>> c) % 2 = if i.testBit c then 1 else 0 := by
  rw [Nat.testBit_to_div_mod, Nat.shiftRight_eq_div_pow]
  rcases Nat.mod_two_eq_zero_or_one (i / 2 ^ c) with h | h <;> simp [h]

/-- Flipping the target bit leaves every other bit position unchanged. -/
theorem shift_mod_xor_flip (i c t : Nat) (hct : c ≠ t) :
    ((i ^^^ (1 <<< t)) >>> c) % 2 = (i >>> c) % 2 := by
  have hbit : (i ^^^ (1 <<< t)).testBit c = i.testBit c := by
    rw [Nat.one_shiftLeft, Nat.testBit_xor,
      Nat.testBit_two_pow_of_ne (fun h => hct h.symm)]
    simp
  rw [shift_mod_two, shift_mod_two, hbit]

theorem swapCond_flip (c1 c2 t i : Nat) (h1 : c1 ≠ t) (h2 : c2 ≠ t) :
    swapCond c1 c2 (i ^^^ (1 <<< t)) ↔ swapCond c1 c2 i := by
  unfold swapCond
  rw [shift_mod_xor_flip i c1 t h1, shift_mod_xor_flip i c2 t h2]

theorem flip_flip (i t : Nat) : (i ^^^ (1 <<< t)) ^^^ (1 <<< t) = i := by
  rw [Nat.xor_assoc, Nat.xor_self, Nat.xor_zero]

theorem flip_ne (i t : Nat) : i ^^^ (1 <<< t) ≠ i := by
  intro h
  have h3 : i ^^^ (i ^^^ (1 <<< t)) = i ^^^ i := congrArg (fun x => i ^^^ x) h
  rw [Nat.xor_self] at h3
  rw [← Nat.xor_assoc, Nat.xor_self, Nat.zero_xor, Nat.one_shiftLeft] at h3
  exact absurd h3 (Nat.pos_iff_ne_zero.mp (Nat.pos_pow_of_pos t (by norm_num)))

theorem flip_lt_two_pow (i t n : Nat) (hi : i < 2 ^ n) (ht : t < n) :
    i ^^^ (1 <<< t) < 2 ^ n := by
  rw [Nat.one_shiftLeft]
  exact Nat.xor_lt_two_pow hi (Nat.pow_lt_pow_right (by norm_num) ht)

theorem flip_ge_two_pow (i t n : Nat) (hi : 2 ^ n ≤ i) (ht : t < n) :
    2 ^ n ≤ i ^^^ (1 <<< t) := by
  by_contra h
  push_neg at h
  have h2 := flip_lt_two_pow _ t n h ht
  rw [flip_flip] at h2
  omega

/-- The partial-swap index map describing the array after the first `k`
iterations of the Toffoli loop: entry `i` currently holds the original entry
of its partner exactly when `i` satisfies the swap condition and precisely
one member of its pair has already been processed. -/
def sigmaSwap (c1 c2 t k i : Nat) : Nat :=
  if swapCond c1 c2 i ∧ min i (i ^^^ (1 <<< t)) < k ∧ k ≤ max i (i ^^^ (1 <<< t))
  then i ^^^ (1 <<< t) else i

theorem getD_set_self' (l : List ℂ) (i : Nat) (x : ℂ) (h : i < l.length) :
    (l.set i x).getD i 0 = x := by
  simp [List.getD_eq_getElem?_getD, List.getElem?_set_self, h]

theorem getD_set_ne' (l : List ℂ) (i j : Nat) (x : ℂ) (h : i ≠ j) :
    (l.set i x).getD j 0 = l.getD j 0 := by
  simp [List.getD_eq_getElem?_getD, List.getElem?_set_ne h]

/-- `sigmaSwap` is unchanged by one more iteration whose state index touches
neither `i` nor `i`'s partner. -/
theorem sigmaSwap_succ_untouched (c1 c2 t k i : Nat)
    (hik : i ≠ k) (hpk : i ^^^ (1 <<< t) ≠ k) :
    sigmaSwap c1 c2 t (k + 1) i = sigmaSwap c1 c2 t k i := by
  unfold sigmaSwap
  by_cases hc : swapCond c1 c2 i
  · rcases Nat.lt_or_ge i (i ^^^ (1 <<< t)) with hord | hord <;>
    · simp only [hc, true_and]
      congr 1
      apply propext
      constructor <;> (rintro ⟨ha, hb⟩; constructor <;> omega)
  · rw [if_neg (by tauto), if_neg (by tauto)]

theorem toffoli_fold_invariant (c1 c2 t n : Nat) (h1 : c1 ≠ t) (h2 : c2 ≠ t)
    (ht : t < n) (sv : List ℂ) (hlen : sv.length = 2 ^ n) :
    ∀ k, k ≤ 2 ^ n →
      ((List.range k).foldl (toffoliStep c1 c2 t) sv).length = sv.length ∧
      (∀ i, ((List.range k).foldl (toffoliStep c1 c2 t) sv).getD i 0 =
        sv.getD (sigmaSwap c1 c2 t k i) 0) := by
  intro k
  induction k with
  | zero =>
    intro _
    refine ⟨rfl, fun i => ?_⟩
    have hz : sigmaSwap c1 c2 t 0 i = i := by
      unfold sigmaSwap
      rw [if_neg]
      rintro ⟨-, hlt, -⟩
      omega
    rw [hz]
    rfl
  | succ k ih =>
    intro hk
    obtain ⟨ihlen, ihget⟩ := ih (Nat.le_of_succ_le hk)
    have hstep : (List.range (k + 1)).foldl (toffoliStep c1 c2 t) sv =
        toffoliStep c1 c2 t ((List.range k).foldl (toffoliStep c1 c2 t) sv) k := by
      rw [List.range_succ, List.foldl_append, List.foldl_cons, List.foldl_nil]
    set F := (List.range k).foldl (toffoliStep c1 c2 t) sv with hF
    by_cases hc : swapCond c1 c2 k
    · have hkp : k ^^^ (1 <<< t) ≠ k := flip_ne k t
      have hklt : k < 2 ^ n := lt_of_lt_of_le (Nat.lt_succ_self k) hk
      have hplt : k ^^^ (1 <<< t) < 2 ^ n := flip_lt_two_pow k t n hklt ht
      have hcp : swapCond c1 c2 (k ^^^ (1 <<< t)) :=
        (swapCond_flip c1 c2 t k h1 h2).mpr hc
      have hset : toffoliStep c1 c2 t F k =
          (F.set k (F.getD (k ^^^ (1 <<< t)) 0)).set
            (k ^^^ (1 <<< t)) (F.getD k 0) := by
        rw [toffoliStep_eq, if_pos hc]
      have hlenF : F.length = 2 ^ n := by rw [ihlen, hlen]
      refine ⟨by rw [hstep, hset]; simpa using ihlen, fun i => ?_⟩
      rw [hstep, hset]
      rcases eq_or_ne i (k ^^^ (1 <<< t)) with rfl | hip
      · -- output slot `p` now holds the old entry of slot `k`
        rw [getD_set_self' _ _ _ (by rw [List.length_set, hlenF]; exact hplt)]
        rw [ihget k]
        congr 1
        unfold sigmaSwap
        rcases Nat.lt_or_ge k (k ^^^ (1 <<< t)) with hord | hord
        · -- first visit of the pair
          rw [if_neg (by rintro ⟨-, hmin, -⟩; omega)]
          rw [if_pos ⟨hcp, by rw [flip_flip]; omega, by rw [flip_flip]; omega⟩]
          exact (flip_flip k t).symm
        · -- second visit of the pair
          have hord' : k ^^^ (1 <<< t) < k := lt_of_le_of_ne hord hkp
          rw [if_pos ⟨hc, by omega, by omega⟩]
          rw [if_neg (by rw [flip_flip]; rintro ⟨-, -, hmax⟩; omega)]
      rcases eq_or_ne i k with hik' | hik
      · -- output slot `k` now holds the old entry of slot `p`
        rw [hik']
        rw [getD_set_ne' _ _ _ _ hkp]
        rw [getD_set_self' _ _ _ (by rw [hlenF]; exact hklt)]
        rw [ihget (k ^^^ (1 <<< t))]
        congr 1
        unfold sigmaSwap
        rcases Nat.lt_or_ge k (k ^^^ (1 <<< t)) with hord | hord
        · rw [if_neg (by rw [flip_flip]; rintro ⟨-, hmin, -⟩; omega)]
          rw [if_pos ⟨hc, by omega, by omega⟩]
        · have hord' : k ^^^ (1 <<< t) < k := lt_of_le_of_ne hord hkp
          rw [if_pos ⟨hcp, by rw [flip_flip]; omega, by rw [flip_flip]; omega⟩]
          rw [flip_flip]
          rw [if_neg (by rintro ⟨-, -, hmax⟩; omega)]
      · -- untouched slot
        rw [getD_set_ne' _ _ _ _ hip.symm, getD_set_ne' _ _ _ _ hik.symm, ihget i]
        congr 1
        by_cases hci : swapCond c1 c2 i
        · have hpk : i ^^^ (1 <<< t) ≠ k := fun h => by
            rw [← flip_flip i t, h] at hip
            exact hip rfl
          exact (sigmaSwap_succ_untouched c1 c2 t k i hik hpk).symm
        · unfold sigmaSwap
          rw [if_neg (by tauto), if_neg (by tauto)]
    · -- no swap: the array is unchanged and `sigmaSwap` is stable at every i
      have hid : toffoliStep c1 c2 t F k = F := by rw [toffoliStep_eq, if_neg hc]
      refine ⟨by rw [hstep, hid]; exact ihlen, fun i => ?_⟩
      rw [hstep, hid, ihget i]
      congr 1
      by_cases hci : swapCond c1 c2 i
      · have hik : i ≠ k := fun h => hc (h ▸ hci)
        have hpk : i ^^^ (1 <<< t) ≠ k := fun h => by
          rw [← h] at hc
          exact hc ((swapCond_flip c1 c2 t i h1 h2).mpr hci)
        exact (sigmaSwap_succ_untouched c1 c2 t k i hik hpk).symm
      · unfold sigmaSwap
        rw [if_neg (by tauto), if_neg (by tauto)]

/-- C2: the claim says the simulator's three-qubit `ccx` path flips the
target bit whenever both controls are 1.  In fact `applyThreeQubitGate` is
the identity on every state vector: each amplitude pair is swapped twice
(once when the scan visits each member of the pair, since the swap condition
ignores the target bit), so the Toffoli gate as simulated does nothing.
Hypotheses: the state vector has length `2^n`, the wires are distinct as
produced by `findGateWires`, and all wires are in range. -/
theorem C2_applyThreeQubitGate_is_identity (sv : List ℂ) (m : List (List ℂ))
    (n c1 c2 t : Nat) (hlen : sv.length = 2 ^ n)
    (h1 : c1 ≠ t) (h2 : c2 ≠ t) (ht : t < n) :
    applyThreeQubitGate sv m [c1, c2, t] = sv := by
  show (List.range sv.length).foldl (toffoliStep c1 c2 t) sv = sv
  obtain ⟨hL, hget⟩ :=
    toffoli_fold_invariant c1 c2 t n h1 h2 ht sv hlen (2 ^ n) (le_refl _)
  rw [hlen]
  apply List.ext_getElem hL
  intro i hi1 hi2
  have hend : sigmaSwap c1 c2 t (2 ^ n) i = i := by
    unfold sigmaSwap
    rw [if_neg]
    rintro ⟨-, hmin, hmax⟩
    rcases Nat.lt_or_ge i (2 ^ n) with hlt | hge
    · have := flip_lt_two_pow i t n hlt ht
      rcases Nat.lt_or_ge i (i ^^^ (1 <<< t)) with h | h <;> omega
    · have := flip_ge_two_pow i t n hge ht
      rcases Nat.lt_or_ge i (i ^^^ (1 <<< t)) with h | h <;> omega
  have hgi := hget i
  rw [hend] at hgi
  rw [List.getD_eq_getElem _ 0 hi1, List.getD_eq_getElem _ 0 hi2] at hgi
  exact hgi

/-- Witness for C2: on the 3-qubit basis state `|110⟩` (index 3: both control
bits of wires 0 and 1 set), the claim demands the target bit flip to index 7;
the simulated gate leaves the vector untouched. -/
theorem C2_applyThreeQubitGate_is_identity_witness :
    applyThreeQubitGate [0, 0, 0, 1, 0, 0, 0, 0] [] [0, 1, 2] =
      [0, 0, 0, 1, 0, 0, 0, 0] :=
  C2_applyThreeQubitGate_is_identity [0, 0, 0, 1, 0, 0, 0, 0] [] 3 0 1 2
    (by rfl) (by decide) (by decide) (by decide)

/-! ## C4: gate placement performs no wire validation -/

/-- C4: the claim says a duplicate wire within one gate fails with
`DuplicateQubit` at placement time and leaves the grid unchanged.  In the
source, `addGate` validates nothing: `addGate("cx", -1, [0, 0])` on a fresh
2-qubit circuit completes normally (the embedding is total because the source
has no failure path for in-range wires), writes the record once into wire 0's
cell at column 1, changes the grid, and the gate is subsequently seen as a
one-wire gate by `findGateWires`.  (Also documented against the code: the
repo's API reference, src/unnamed/part_000, promises "All methods validate
inputs and throw descriptive errors".) -/
theorem C4_duplicate_wire_placement_succeeds :
    (addGate (emptyCircuit 2 2) "cx" (-1) [0, 0] Options.none).gates =
      [[Option.none, Option.some ⟨"cx", 0, Options.none⟩],
       [Option.none, Option.none]] ∧
    (addGate (emptyCircuit 2 2) "cx" (-1) [0, 0] Options.none).gates ≠
      (emptyCircuit 2 2).gates ∧
    findGateWires (addGate (emptyCircuit 2 2) "cx" (-1) [0, 0] Options.none)
      ⟨"cx", 0, Options.none⟩ = [0] := by
  have hlit : (addGate (emptyCircuit 2 2) "cx" (-1) [0, 0] Options.none).gates =
      [[Option.none, Option.some ⟨"cx", 0, Options.none⟩],
       [Option.none, Option.none]] := rfl
  refine ⟨hlit, ?_, rfl⟩
  rw [hlit]
  intro h
  simp [emptyCircuit] at h

/-! ## C8: where append-mode placement actually lands

`lastNonEmptyPlace` scans from the rightmost column down; at the first column
holding any non-empty cell it returns that column if the cell lies on one of
the gate's own wires, and that column PLUS ONE otherwise.  `addGate` then adds
one more, so an appended gate lands at frontier+1 only when the frontier cell
is on its own wires, and at frontier+2 otherwise — not always at frontier+1 as
the claim states. -/

/-- `F` is the circuit's global frontier: the rightmost column holding a
non-empty cell on any wire. -/
def isGlobalFrontier (c : Circuit) (F : Nat) : Prop :=
  F < numCols c ∧ anyOnAll c F = true ∧
    ∀ col, F < col → col < numCols c → anyOnAll c col = false

/-- With as many grid rows as qubits, a column on which `anyOnAll` fails has
no non-empty cell on any wire at all. -/
theorem cell_none_of_anyOnAll_false (c : Circuit) (col : Nat)
    (hrows : c.gates.length = c.numQubits) (h : anyOnAll c col = false) :
    ∀ w, cell c w col = Option.none := by
  intro w
  by_cases hw : w < c.numQubits
  · unfold anyOnAll at h
    rw [List.any_eq_false] at h
    have hcell := h w (List.mem_range.mpr hw)
    cases hc : cell c w col
    · rfl
    · rw [hc] at hcell; simp at hcell
  · unfold cell
    have hrow : c.gates.getD w [] = [] := List.getD_eq_default _ _ (by omega)
    rw [hrow]
    rfl

theorem anyOnWires_false_of_anyOnAll_false (c : Circuit) (ws : List Nat)
    (col : Nat) (hrows : c.gates.length = c.numQubits)
    (h : anyOnAll c col = false) : anyOnWires c ws col = false := by
  unfold anyOnWires
  rw [List.any_eq_false]
  intro w _
  rw [cell_none_of_anyOnAll_false c col hrows h w]
  simp

theorem lastNonEmptyAux_all_empty (c : Circuit) (ws : List Nat)
    (hrows : c.gates.length = c.numQubits) :
    ∀ k, (∀ col, col < k → anyOnAll c col = false) →
      lastNonEmptyAux c ws k = 0 := by
  intro k
  induction k with
  | zero => intro _; rfl
  | succ k ih =>
    intro hempty
    unfold lastNonEmptyAux
    rw [if_neg, if_neg]
    · exact ih (fun col hcol => hempty col (Nat.lt_succ_of_lt hcol))
    · rw [hempty k (Nat.lt_succ_self k)]; simp
    · rw [anyOnWires_false_of_anyOnAll_false c ws k hrows
        (hempty k (Nat.lt_succ_self k))]
      simp

theorem lastNonEmptyAux_frontier (c : Circuit) (ws : List Nat)
    (hrows : c.gates.length = c.numQubits) (F : Nat)
    (hFany : anyOnAll c F = true) :
    ∀ k, F < k → (∀ col, F < col → col < k → anyOnAll c col = false) →
      lastNonEmptyAux c ws k = if anyOnWires c ws F then F else F + 1 := by
  intro k
  induction k with
  | zero => omega
  | succ k ih =>
    intro hFk habove
    rcases Nat.lt_or_ge F k with h | h
    · -- the scanned column k is strictly above the frontier, hence empty
      have hek : anyOnAll c k = false := habove k h (Nat.lt_succ_self k)
      unfold lastNonEmptyAux
      rw [if_neg, if_neg]
      · exact ih h (fun col h1 h2 => habove col h1 (Nat.lt_succ_of_lt h2))
      · rw [hek]; simp
      · rw [anyOnWires_false_of_anyOnAll_false c ws k hrows hek]; simp
    · -- k = F: the scan stops here
      have hFk' : F = k := by omega
      subst hFk'
      unfold lastNonEmptyAux
      by_cases hw : anyOnWires c ws F
      · rw [if_pos hw, if_pos hw]
      · rw [if_neg (by rw [Bool.not_eq_true] at hw ⊢; exact hw), if_pos hFany,
          if_neg hw]

/-- C8 counterexample: on `Circuit(2,2).h(0)` the global frontier is column 1
(the `h` cell on wire 0), yet appending a gate on wire 1 targets column 3,
not frontier + 1 = 2 as the claim states. -/
theorem C8_append_not_global_frontier_plus_one :
    isGlobalFrontier ((emptyCircuit 2 2).h 0) 1 ∧
    targetColumnFor ((emptyCircuit 2 2).h 0) (-1) [1] = 3 ∧
    targetColumnFor ((emptyCircuit 2 2).h 0) (-1) [1] ≠ 1 + 1 := by
  refine ⟨⟨?_, rfl, ?_⟩, rfl, ?_⟩
  · have h2 : numCols ((emptyCircuit 2 2).h 0) = 2 := rfl
    omega
  · intro col h1 h2
    have h3 : numCols ((emptyCircuit 2 2).h 0) = 2 := rfl
    omega
  · intro h
    have h3 : targetColumnFor ((emptyCircuit 2 2).h 0) (-1) [1] = 3 := rfl
    omega

/-- C8 (amended): in append mode the target column is computed from the
global frontier `F`: on an all-empty grid the target is column 1; otherwise
the target is `F + 1` when some wire of the gate holds a non-empty cell at
`F`, and `F + 2` when the frontier cell lies only on other wires. -/
theorem C8_append_target_column_characterization (c : Circuit) (ws : List Nat)
    (hrows : c.gates.length = c.numQubits) :
    ((∀ col, col < numCols c → anyOnAll c col = false) →
      targetColumnFor c (-1) ws = 1) ∧
    (∀ F, isGlobalFrontier c F →
      targetColumnFor c (-1) ws =
        if anyOnWires c ws F then F + 1 else F + 2) := by
  constructor
  · intro hempty
    unfold targetColumnFor
    rw [if_pos (by norm_num)]
    unfold lastNonEmptyPlace
    rw [lastNonEmptyAux_all_empty c ws hrows (numCols c) hempty]
  · rintro F ⟨hFlt, hFany, habove⟩
    unfold targetColumnFor
    rw [if_pos (by norm_num)]
    unfold lastNonEmptyPlace
    rw [lastNonEmptyAux_frontier c ws hrows F hFany (numCols c) hFlt habove]
    by_cases hw : anyOnWires c ws F
    · rw [if_pos hw, if_pos hw]
    · rw [if_neg hw, if_neg hw]

/-- Witness for C8: the amended characterization applied to the concrete
circuit `Circuit(2,2).h(0)` with frontier column 1 and append wires `[1]`:
the frontier cell is not on wire 1, so the target is 1 + 2 = 3. -/
theorem C8_append_target_column_characterization_witness :
    targetColumnFor ((emptyCircuit 2 2).h 0) (-1) [1] = 3 := by
  have h := (C8_append_target_column_characterization
      ((emptyCircuit 2 2).h 0) [1] rfl).2 1
    ⟨by (have h2 : numCols ((emptyCircuit 2 2).h 0) = 2 := rfl); omega,
      rfl, by intro col h1 h2; (have h3 : numCols ((emptyCircuit 2 2).h 0) = 2 := rfl); omega⟩
  rw [h]
  rfl

/-! ## C6: measurement sampling (`handleMeasurements`)

The source walks the grid column-outer/wire-inner, and for every `measure`
cell computes the wire's marginal via `calculateQubitProbabilities` and draws
`Math.random() < prob1 ? 1 : 0`.  The random source is modelled as a stream
`rand : Nat → ℝ` consumed in draw order, one fresh sample per measure cell. -/

/-- The loop body of `calculateQubitProbabilities`: split each state's
probability into the `prob0`/`prob1` accumulator by the measured wire's bit. -/
noncomputable def qubitProbStep (probs : List ℝ) (q : Nat) (pr : ℝ × ℝ)
    (state : Nat) : ℝ × ℝ :=
  if (state >>> q) % 2 = 0 then (pr.1 + probs.getD state 0, pr.2)
  else (pr.1, pr.2 + probs.getD state 0)

/-- `calculateQubitProbabilities(stateProbabilities, qubitIndex, numQubits)`:
the `[P(0), P(1)]` pair accumulated over all basis states. -/
noncomputable def calculateQubitProbabilities (probs : List ℝ) (q : Nat) : ℝ × ℝ :=
  (List.range probs.length).foldl (qubitProbStep probs q) (0, 0)

/-- The key under which a measurement result is recorded: the classical
register slot when `options.creg` is present (its name is the constant
`"creg"`), else the `qubit_<wire>` fallback. -/
inductive MeasKey where
  | creg (bit : Nat)
  | qubit (wire : Nat)

/-- The per-cell body of `handleMeasurements`'s double loop, with the draw
counter threaded through: a `measure` cell appends one keyed Bernoulli result
and consumes one random sample; any other cell is skipped. -/
noncomputable def measStep (c : Circuit) (probs : List ℝ) (rand : Nat → ℝ)
    (acc : List (MeasKey × Nat) × Nat) (cw : Nat × Nat) :
    List (MeasKey × Nat) × Nat :=
  match cell c cw.2 cw.1 with
  | Option.some g =>
    if g.name = "measure" then
      let qp := calculateQubitProbabilities probs cw.2
      let result := if rand acc.2 < qp.2 then 1 else 0
      let key := match g.options.cregBit with
        | Option.some b => MeasKey.creg b
        | Option.none => MeasKey.qubit cw.2
      (acc.1 ++ [(key, result)], acc.2 + 1)
    else acc
  | Option.none => acc

/-- `handleMeasurements(circuit, probabilities)`: scan every column, then
every wire within it, processing each `measure` cell in encounter order.
(The JS result is an object keyed by the strings modelled by `MeasKey`; a
later duplicate key overwrites — the returned association list keeps every
draw in order instead, which is what the claim is about.) -/
noncomputable def handleMeasurements (c : Circuit) (probs : List ℝ)
    (rand : Nat → ℝ) : List (MeasKey × Nat) :=
  ((List.range (numCols c)).foldl (fun acc col =>
      (List.range c.numQubits).foldl
        (fun acc wire => measStep c probs rand acc (col, wire)) acc)
    ([], 0)).1

/-- Spec-side: the wire's marginal probability of outcome 1 — the sum of the
final-state probabilities over all basis states whose bit at the wire is 1. -/
noncomputable def marginalOne (probs : List ℝ) (q : Nat) : ℝ :=
  ∑ s ∈ (Finset.range probs.length).filter (fun s => (s >>> q) % 2 = 1),
    probs.getD s 0

/-- Spec-side: the marginal probability of outcome 0. -/
noncomputable def marginalZero (probs : List ℝ) (q : Nat) : ℝ :=
  ∑ s ∈ (Finset.range probs.length).filter (fun s => (s >>> q) % 2 = 0),
    probs.getD s 0

/-- The measure-cell filter used to describe `handleMeasurements`'s output:
the cell's wire and gate record when the cell holds a `measure` directive. -/
def measCellFilter (c : Circuit) (cw : Nat × Nat) : Option (Nat × GateRec) :=
  match cell c cw.2 cw.1 with
  | Option.some g => if g.name = "measure" then Option.some (cw.2, g) else Option.none
  | Option.none => Option.none

/-- All (column, wire) grid coordinates in the traversal order of
`handleMeasurements`. -/
def gridCoords (c : Circuit) : List (Nat × Nat) :=
  (List.range (numCols c)).flatMap (fun col =>
    (List.range c.numQubits).map (fun wire => (col, wire)))

/-- The `measure` cells of the grid, in traversal order. -/
def measCells (c : Circuit) : List (Nat × GateRec) :=
  (gridCoords c).filterMap (measCellFilter c)

/-- The key a measurement on `wire` recorded by gate `g` is filed under. -/
def measKeyOf (g : GateRec) (wire : Nat) : MeasKey :=
  match g.options.cregBit with
  | Option.some b => MeasKey.creg b
  | Option.none => MeasKey.qubit wire

theorem qubitProb_fold (probs : List ℝ) (q : Nat) :
    ∀ (n : Nat) (a b : ℝ),
      (List.range n).foldl (qubitProbStep probs q) (a, b) =
        (a + ∑ s ∈ (Finset.range n).filter (fun s => (s >>> q) % 2 = 0),
          probs.getD s 0,
         b + ∑ s ∈ (Finset.range n).filter (fun s => (s >>> q) % 2 = 1),
          probs.getD s 0) := by
  intro n
  induction n with
  | zero => intro a b; simp
  | succ n ih =>
    intro a b
    rw [List.range_succ, List.foldl_append, List.foldl_cons, List.foldl_nil, ih]
    have hnotmem : n ∉ Finset.range n := by simp
    rcases Nat.mod_two_eq_zero_or_one (n >>> q) with h | h
    · rw [qubitProbStep, if_pos h]
      rw [Finset.range_succ, Finset.filter_insert, Finset.filter_insert]
      rw [if_pos h, if_neg (by omega)]
      rw [Finset.sum_insert (by simp)]
      dsimp only
      rw [Prod.mk.injEq]
      exact ⟨by ring, by ring⟩
    · rw [qubitProbStep, if_neg (by omega)]
      rw [Finset.range_succ, Finset.filter_insert, Finset.filter_insert]
      rw [if_neg (by omega), if_pos h]
      rw [Finset.sum_insert (by simp)]
      dsimp only
      rw [Prod.mk.injEq]
      exact ⟨by ring, by ring⟩

theorem calculateQubitProbabilities_eq_marginals (probs : List ℝ) (q : Nat) :
    calculateQubitProbabilities probs q = (marginalZero probs q, marginalOne probs q) := by
  rw [calculateQubitProbabilities, qubitProb_fold probs q probs.length 0 0,
    marginalZero, marginalOne]
  norm_num

theorem measStep_eq (c : Circuit) (probs : List ℝ) (rand : Nat → ℝ)
    (acc : List (MeasKey × Nat) × Nat) (cw : Nat × Nat) :
    measStep c probs rand acc cw =
      match measCellFilter c cw with
      | Option.some wg =>
        (acc.1 ++ [(measKeyOf wg.2 wg.1,
          if rand acc.2 < (calculateQubitProbabilities probs wg.1).2 then 1 else 0)],
         acc.2 + 1)
      | Option.none => acc := by
  unfold measStep measCellFilter
  cases hc : cell c cw.2 cw.1 with
  | none => rfl
  | some g =>
    dsimp only
    by_cases hn : g.name = "measure"
    · rw [if_pos hn, if_pos hn]
      rfl
    · rw [if_neg hn, if_neg hn]

theorem fold_measStep_eq (c : Circuit) (probs : List ℝ) (rand : Nat → ℝ)
    (L : List (Nat × Nat)) :
    ∀ (acc : List (MeasKey × Nat)) (k : Nat),
      L.foldl (measStep c probs rand) (acc, k) =
        (acc ++ ((L.filterMap (measCellFilter c)).enumFrom k).map (fun p =>
          (measKeyOf p.2.2 p.2.1,
           if rand p.1 < (calculateQubitProbabilities probs p.2.1).2 then 1 else 0)),
         k + (L.filterMap (measCellFilter c)).length) := by
  induction L with
  | nil => intro acc k; simp
  | cons cw L ih =>
    intro acc k
    rw [List.foldl_cons, measStep_eq]
    cases hf : measCellFilter c cw
    · rw [List.filterMap_cons_none hf, ih]
    · rw [List.filterMap_cons_some hf, ih]
      rw [List.enumFrom_cons]
      simp [List.append_assoc]
      omega

theorem foldl_flatMap_foldl {α β γ : Type} (ls : List α) (f : α → List β)
    (g : γ → β → γ) (init : γ) :
    ls.foldl (fun acc a => (f a).foldl g acc) init = (ls.flatMap f).foldl g init := by
  induction ls generalizing init with
  | nil => rfl
  | cons a ls ih =>
    rw [List.foldl_cons, List.flatMap_cons, List.foldl_append, ih]

/-- C6: for every measure directive anywhere in the grid, in traversal order,
the simulator computes the wire's marginal probability of outcome 1 by
summing the final-state probabilities over the basis states whose bit at that
wire is 1 (`calculateQubitProbabilities`'s second component equals the
spec-side `marginalOne` sum), and records, per measured wire independently,
one Bernoulli draw that is 1 exactly when that wire's fresh uniform sample is
below the marginal. -/
theorem C6_measurement_sampling (c : Circuit) (probs : List ℝ) (rand : Nat → ℝ) :
    (∀ q, (calculateQubitProbabilities probs q).2 = marginalOne probs q) ∧
    handleMeasurements c probs rand =
      ((measCells c).enumFrom 0).map (fun p =>
        (measKeyOf p.2.2 p.2.1,
         if rand p.1 < marginalOne probs p.2.1 then 1 else 0)) := by
  constructor
  · intro q
    rw [calculateQubitProbabilities_eq_marginals]
  · rw [handleMeasurements]
    have hflat := foldl_flatMap_foldl (List.range (numCols c))
      (fun col => (List.range c.numQubits).map (fun wire => (col, wire)))
      (measStep c probs rand) (([], 0) : List (MeasKey × Nat) × Nat)
    rw [show (fun (acc : List (MeasKey × Nat) × Nat) col =>
        (List.range c.numQubits).foldl
          (fun acc wire => measStep c probs rand acc (col, wire)) acc) =
        (fun acc col => ((List.range c.numQubits).map (fun wire => (col, wire))).foldl
          (measStep c probs rand) acc) from ?_, hflat]
    · rw [fold_measStep_eq c probs rand _ [] 0]
      show ((measCells c).enumFrom 0).map _ = _
      apply List.map_congr_left
      intro p _
      rw [calculateQubitProbabilities_eq_marginals]
    · funext acc col
      rw [List.foldl_map]

/-! ## QuantumNetwork.js — nodes, entanglements, and the composer -/

/-- A network node: `{id, name, qubits, circuit}` (the UI position is opaque
to the core and not modelled).  `addNode` gives it a fresh
`new QuantumCircuit(qubits)` — no classical register. -/
structure NetNode where
  id : Nat
  name : String
  qubits : Nat
  circuit : Circuit

/-- An entanglement `{node1Id, qubit1, node2Id, qubit2, type}`.  Its JS map
key is the string `"n1-q1_n2-q2"`, i.e. the endpoint quadruple. -/
structure Ent where
  node1Id : Nat
  qubit1 : Nat
  node2Id : Nat
  qubit2 : Nat
  kind : String

/-- The typed failure kinds of the network composer, standing for the
distinct `throw new Error(...)` messages of the source. -/
inductive NetErr where
  | nodeNotFound
  | qubitIndexOutOfRange
  | qubitAlreadyEntangled
  | entanglementNotFound
  | emptyNetwork

/-- A network: both JS `Map`s are kept as lists in insertion order, plus the
sequential node-id counter. -/
structure Network where
  nodes : List NetNode
  entanglements : List Ent
  nextNodeId : Nat

/-- `new QuantumNetwork(name)`. -/
def emptyNetwork : Network := ⟨[], [], 0⟩

/-- `addNode(name, qubits, position)`: assign the next sequential id and an
isolated circuit; returns the updated network and the new node's id. -/
def addNode (net : Network) (name : String) (qubits : Nat) : Network × Nat :=
  let nodeId := net.nextNodeId
  ({ net with
      nodes := net.nodes ++ [⟨nodeId, name, qubits, emptyCircuit qubits 0⟩],
      nextNodeId := nodeId + 1 }, nodeId)

/-- `nodes.get(id)` (node ids are unique, so `find?` is the map lookup). -/
def findNode (net : Network) (id : Nat) : Option NetNode :=
  net.nodes.find? (fun n => n.id = id)

/-- `removeNode(nodeId)`: cascade-remove every entanglement touching the
node, then the node itself. -/
def removeNode (net : Network) (nodeId : Nat) : Except NetErr Network :=
  if (findNode net nodeId).isNone then Except.error NetErr.nodeNotFound
  else Except.ok { net with
    nodes := net.nodes.filter (fun n => !(n.id == nodeId)),
    entanglements := net.entanglements.filter
      (fun e => !(e.node1Id == nodeId || e.node2Id == nodeId)) }

/-- The per-entanglement test of `addEntanglement`'s already-entangled scan,
verbatim from the source's four-way disjunction. -/
def entTouches (n1 q1 n2 q2 : Nat) (e : Ent) : Bool :=
  (e.node1Id == n1 && e.qubit1 == q1) || (e.node2Id == n1 && e.qubit2 == q1) ||
  (e.node1Id == n2 && e.qubit1 == q2) || (e.node2Id == n2 && e.qubit2 == q2)

/-- `addEntanglement(node1Id, qubit1, node2Id, qubit2, type)`: node existence
first, then the range check `qubit >= node.qubits`, then the
already-entangled scan, then append. -/
def addEntanglement (net : Network) (n1 q1 n2 q2 : Nat) (kind : String) :
    Except NetErr Network :=
  match findNode net n1, findNode net n2 with
  | Option.some node1, Option.some node2 =>
    if q1 ≥ node1.qubits ∨ q2 ≥ node2.qubits then
      Except.error NetErr.qubitIndexOutOfRange
    else if net.entanglements.any (entTouches n1 q1 n2 q2) then
      Except.error NetErr.qubitAlreadyEntangled
    else
      Except.ok { net with
        entanglements := net.entanglements ++ [⟨n1, q1, n2, q2, kind⟩] }
  | _, _ => Except.error NetErr.nodeNotFound

/-- `removeEntanglement(entanglementId)`: the id is the endpoint quadruple;
delete the entry with that key (keys are unique, so `filter` is `delete`). -/
def removeEntanglement (net : Network) (n1 q1 n2 q2 : Nat) :
    Except NetErr Network :=
  if net.entanglements.any (fun e =>
      e.node1Id == n1 && e.qubit1 == q1 && e.node2Id == n2 && e.qubit2 == q2) then
    Except.ok { net with
      entanglements := net.entanglements.filter (fun e =>
        !(e.node1Id == n1 && e.qubit1 == q1 && e.node2Id == n2 && e.qubit2 == q2)) }
  else Except.error NetErr.entanglementNotFound

/-! ## C9: addEntanglement validation and the one-entanglement-per-qubit
invariant -/

/-- Spec-side: `(nid, q)` is already an endpoint of some entanglement. -/
def endpointUsed (net : Network) (nid q : Nat) : Prop :=
  ∃ e ∈ net.entanglements,
    (e.node1Id = nid ∧ e.qubit1 = q) ∨ (e.node2Id = nid ∧ e.qubit2 = q)

/-- Two entanglements share an endpoint `(node, qubit)` pair. -/
def sharesEndpoint (e1 e2 : Ent) : Prop :=
  (e1.node1Id = e2.node1Id ∧ e1.qubit1 = e2.qubit1) ∨
  (e1.node1Id = e2.node2Id ∧ e1.qubit1 = e2.qubit2) ∨
  (e1.node2Id = e2.node1Id ∧ e1.qubit2 = e2.qubit1) ∨
  (e1.node2Id = e2.node2Id ∧ e1.qubit2 = e2.qubit2)

/-- The one-entanglement-per-qubit invariant: no two distinct entanglement
entries share an endpoint. -/
def entInvariant (net : Network) : Prop :=
  net.entanglements.Pairwise (fun e1 e2 => ¬ sharesEndpoint e1 e2)

/-- The network-building operations of §4.5. -/
inductive NetOp where
  | addNode (name : String) (qubits : Nat)
  | removeNode (id : Nat)
  | addEnt (n1 q1 n2 q2 : Nat) (kind : String)
  | removeEnt (n1 q1 n2 q2 : Nat)

/-- One operation applied to a network; a thrown error leaves the caller's
network exactly as it was (JS raises before any mutation). -/
def applyOp (net : Network) (op : NetOp) : Network :=
  match op with
  | NetOp.addNode name q => (addNode net name q).1
  | NetOp.removeNode id =>
    match removeNode net id with
    | Except.ok net' => net'
    | Except.error _ => net
  | NetOp.addEnt n1 q1 n2 q2 k =>
    match addEntanglement net n1 q1 n2 q2 k with
    | Except.ok net' => net'
    | Except.error _ => net
  | NetOp.removeEnt n1 q1 n2 q2 =>
    match removeEntanglement net n1 q1 n2 q2 with
    | Except.ok net' => net'
    | Except.error _ => net

/-- A network an API caller can hold: anything built from the fresh network
by the §4.5 operations. -/
def reachableNet (net : Network) : Prop :=
  ∃ ops : List NetOp, net = ops.foldl applyOp emptyNetwork

theorem entTouches_iff (net : Network) (n1 q1 n2 q2 : Nat) :
    net.entanglements.any (entTouches n1 q1 n2 q2) = true ↔
      endpointUsed net n1 q1 ∨ endpointUsed net n2 q2 := by
  rw [List.any_eq_true]
  unfold endpointUsed entTouches
  constructor
  · rintro ⟨e, he, hcond⟩
    simp only [Bool.or_eq_true, Bool.and_eq_true, beq_iff_eq] at hcond
    rcases hcond with ((h | h) | h) | h
    · exact Or.inl ⟨e, he, Or.inl h⟩
    · exact Or.inl ⟨e, he, Or.inr h⟩
    · exact Or.inr ⟨e, he, Or.inl h⟩
    · exact Or.inr ⟨e, he, Or.inr h⟩
  · rintro (⟨e, he, h | h⟩ | ⟨e, he, h | h⟩) <;>
      refine ⟨e, he, ?_⟩ <;>
      simp only [Bool.or_eq_true, Bool.and_eq_true, beq_iff_eq] <;> tauto

theorem addEntanglement_ok_shape (net : Network) (n1 q1 n2 q2 : Nat)
    (kind : String) (net' : Network)
    (h : addEntanglement net n1 q1 n2 q2 kind = Except.ok net') :
    net'.nodes = net.nodes ∧
    net'.entanglements = net.entanglements ++ [⟨n1, q1, n2, q2, kind⟩] ∧
    ¬ (endpointUsed net n1 q1 ∨ endpointUsed net n2 q2) := by
  unfold addEntanglement at h
  cases h1 : findNode net n1 with
  | none => rw [h1] at h; cases h
  | some node1 =>
    cases h2 : findNode net n2 with
    | none => rw [h1, h2] at h; cases h
    | some node2 =>
      rw [h1, h2] at h
      dsimp only at h
      by_cases hq : q1 ≥ node1.qubits ∨ q2 ≥ node2.qubits
      · rw [if_pos hq] at h; cases h
      · rw [if_neg hq] at h
        by_cases ha : net.entanglements.any (entTouches n1 q1 n2 q2)
        · rw [if_pos ha] at h; cases h
        · rw [if_neg ha] at h
          cases h
          refine ⟨rfl, rfl, ?_⟩
          rw [← entTouches_iff]
          exact fun hcontra => ha hcontra

theorem entInvariant_addEnt (net : Network) (n1 q1 n2 q2 : Nat) (kind : String)
    (net' : Network) (hinv : entInvariant net)
    (h : addEntanglement net n1 q1 n2 q2 kind = Except.ok net') :
    entInvariant net' := by
  obtain ⟨-, hents, hused⟩ := addEntanglement_ok_shape net n1 q1 n2 q2 kind net' h
  unfold entInvariant
  rw [hents, List.pairwise_append]
  refine ⟨hinv, List.pairwise_singleton _ _, ?_⟩
  rintro e he e' he'
  rw [List.mem_singleton] at he'
  subst he'
  intro hshare
  apply hused
  unfold sharesEndpoint at hshare
  unfold endpointUsed
  rcases hshare with h | h | h | h
  · exact Or.inl ⟨e, he, Or.inl h⟩
  · exact Or.inr ⟨e, he, Or.inl h⟩
  · exact Or.inl ⟨e, he, Or.inr h⟩
  · exact Or.inr ⟨e, he, Or.inr h⟩

theorem entInvariant_applyOp (net : Network) (op : NetOp)
    (hinv : entInvariant net) : entInvariant (applyOp net op) := by
  cases op with
  | addNode name q => exact hinv
  | removeNode id =>
    show entInvariant (match removeNode net id with
      | Except.ok net' => net'
      | Except.error _ => net)
    unfold removeNode
    by_cases h : (findNode net id).isNone
    · rw [if_pos h]
      exact hinv
    · rw [if_neg h]
      exact List.Pairwise.filter _ hinv
  | addEnt n1 q1 n2 q2 k =>
    show entInvariant (match addEntanglement net n1 q1 n2 q2 k with
      | Except.ok net' => net'
      | Except.error _ => net)
    cases h : addEntanglement net n1 q1 n2 q2 k with
    | ok net' => exact entInvariant_addEnt net n1 q1 n2 q2 k net' hinv h
    | error e => exact hinv
  | removeEnt n1 q1 n2 q2 =>
    show entInvariant (match removeEntanglement net n1 q1 n2 q2 with
      | Except.ok net' => net'
      | Except.error _ => net)
    unfold removeEntanglement
    by_cases h : net.entanglements.any (fun e =>
        e.node1Id == n1 && e.qubit1 == q1 && e.node2Id == n2 && e.qubit2 == q2)
    · rw [if_pos h]
      exact List.Pairwise.filter _ hinv
    · rw [if_neg h]
      exact hinv

/-- C9: `addEntanglement` fails with `NodeNotFound` when either node id is
absent; with `QubitIndexOutOfRange` when either local qubit index is not
below that node's qubit count; with `QubitAlreadyEntangled` when either
endpoint pair is already an endpoint of an existing entanglement; a failing
call leaves the network exactly as it was; and consequently every reachable
network satisfies the one-entanglement-per-qubit invariant. -/
theorem C9_addEntanglement_validation :
    (∀ (net : Network) (n1 q1 n2 q2 : Nat) (kind : String),
      (findNode net n1 = Option.none ∨ findNode net n2 = Option.none) →
      addEntanglement net n1 q1 n2 q2 kind = Except.error NetErr.nodeNotFound) ∧
    (∀ (net : Network) (n1 q1 n2 q2 : Nat) (kind : String)
        (node1 node2 : NetNode),
      findNode net n1 = Option.some node1 → findNode net n2 = Option.some node2 →
      (node1.qubits ≤ q1 ∨ node2.qubits ≤ q2) →
      addEntanglement net n1 q1 n2 q2 kind =
        Except.error NetErr.qubitIndexOutOfRange) ∧
    (∀ (net : Network) (n1 q1 n2 q2 : Nat) (kind : String)
        (node1 node2 : NetNode),
      findNode net n1 = Option.some node1 → findNode net n2 = Option.some node2 →
      q1 < node1.qubits → q2 < node2.qubits →
      (endpointUsed net n1 q1 ∨ endpointUsed net n2 q2) →
      addEntanglement net n1 q1 n2 q2 kind =
        Except.error NetErr.qubitAlreadyEntangled) ∧
    (∀ (net : Network) (n1 q1 n2 q2 : Nat) (kind : String) (err : NetErr),
      addEntanglement net n1 q1 n2 q2 kind = Except.error err →
      applyOp net (NetOp.addEnt n1 q1 n2 q2 kind) = net) ∧
    (∀ net : Network, reachableNet net → entInvariant net) := by
  refine ⟨?_, ?_, ?_, ?_, ?_⟩
  · rintro net n1 q1 n2 q2 kind h
    unfold addEntanglement
    rcases h with h | h
    · rw [h]
    · rw [h]
      cases findNode net n1 <;> rfl
  · intro net n1 q1 n2 q2 kind node1 node2 h1 h2 hq
    unfold addEntanglement
    rw [h1, h2]
    dsimp only
    rw [if_pos (show q1 ≥ node1.qubits ∨ q2 ≥ node2.qubits from hq)]
  · intro net n1 q1 n2 q2 kind node1 node2 h1 h2 hq1 hq2 hused
    unfold addEntanglement
    rw [h1, h2]
    dsimp only
    rw [if_neg (by push_neg; exact ⟨hq1, hq2⟩),
      if_pos ((entTouches_iff net n1 q1 n2 q2).mpr hused)]
  · intro net n1 q1 n2 q2 kind err h
    show (match addEntanglement net n1 q1 n2 q2 kind with
      | Except.ok net' => net'
      | Except.error _ => net) = net
    rw [h]
  · rintro net ⟨ops, rfl⟩
    have hstart : entInvariant emptyNetwork := List.Pairwise.nil
    induction ops using List.reverseRecOn with
    | nil => exact hstart
    | append_singleton ops op ih =>
      rw [List.foldl_append, List.foldl_cons, List.foldl_nil]
      exact entInvariant_applyOp _ op ih

/-- A two-node network (node ids 0 and 1, two qubits each), as built by two
`addNode` calls. -/
def nodeA : NetNode := ⟨0, "A", 2, emptyCircuit 2 0⟩

def nodeB : NetNode := ⟨1, "B", 2, emptyCircuit 2 0⟩

def netAB : Network := ⟨[nodeA, nodeB], [], 2⟩

/-- The entanglement `(node 0, qubit 0) — (node 1, qubit 0)`. -/
def entAB : Ent := ⟨0, 0, 1, 0, "EPR"⟩

/-- `netAB` with `entAB` declared. -/
def netABE : Network := ⟨[nodeA, nodeB], [entAB], 2⟩

/-- Witness for C9: all five conjuncts instantiated on the concrete two-node
network — a missing node id, an out-of-range local qubit, a reused endpoint,
an error leaving the network untouched, and the invariant of the reachable
`netAB`. -/
theorem C9_addEntanglement_validation_witness :
    addEntanglement netAB 5 0 6 0 "EPR" = Except.error NetErr.nodeNotFound ∧
    addEntanglement netAB 0 7 1 0 "EPR" =
      Except.error NetErr.qubitIndexOutOfRange ∧
    addEntanglement netABE 0 0 1 1 "EPR" =
      Except.error NetErr.qubitAlreadyEntangled ∧
    applyOp netAB (NetOp.addEnt 5 0 6 0 "EPR") = netAB ∧
    entInvariant netAB :=
  ⟨C9_addEntanglement_validation.1 netAB 5 0 6 0 "EPR" (Or.inl rfl),
   C9_addEntanglement_validation.2.1 netAB 0 7 1 0 "EPR" nodeA nodeB rfl rfl
     (Or.inl (by decide)),
   C9_addEntanglement_validation.2.2.1 netABE 0 0 1 1 "EPR" nodeA nodeB rfl rfl
     (by decide) (by decide)
     (Or.inl ⟨entAB, List.mem_singleton_self entAB, Or.inl ⟨rfl, rfl⟩⟩),
   C9_addEntanglement_validation.2.2.2.1 netAB 5 0 6 0 "EPR" NetErr.nodeNotFound
     (C9_addEntanglement_validation.1 netAB 5 0 6 0 "EPR" (Or.inl rfl)),
   C9_addEntanglement_validation.2.2.2.2 netAB
     ⟨[NetOp.addNode "A" 2, NetOp.addNode "B" 2], rfl⟩⟩

/-! ## C7: network-to-circuit replay (`toCircuit`)

`translateNodeCircuitToGlobal` visits every non-empty grid CELL and calls
`addGateToGlobalCircuit` once per cell — a k-wire gate, present in k cells,
is replayed k times, not once.  `addGateToGlobalCircuit` receives the
computed column `col + 2` but ignores it entirely: every case calls an
append-mode chainable method.  (The source's `maxSteps`/`networkSteps`
computation in `toCircuit` is dead code and is not modelled.) -/

/-- The offset-assignment fold of `toCircuit`: each node id is mapped to the
running total of qubit counts before it, in insertion order; the second
component is the final total qubit count. -/
def offsetsAndTotal (nodes : List NetNode) : List (Nat × Nat) × Nat :=
  nodes.foldl (fun acc node =>
    (acc.1 ++ [(node.id, acc.2)], acc.2 + node.qubits)) ([], 0)

/-- `nodeOffsets.get(id)` over the computed association list. -/
def offsetOf (offs : List (Nat × Nat)) (id : Nat) : Nat :=
  ((offs.find? (fun p => p.1 = id)).map Prod.snd).getD 0

/-- `addGateToGlobalCircuit(globalCircuit, gateName, globalWires, column,
options)`: the `switch` over gate names.  Every handled case calls the
corresponding chainable method, which is append-mode `addGate`; the `column`
parameter is received but never used, exactly as in the source; unknown
names only warn on the console and add nothing. -/
def addGateToGlobalCircuit (g : Circuit) (gateName : String)
    (globalWires : List Nat) (_column : Nat) (options : Options) : Circuit :=
  match gateName with
  | "h" => g.h (globalWires.getD 0 0)
  | "x" => g.x (globalWires.getD 0 0)
  | "y" => g.y (globalWires.getD 0 0)
  | "z" => g.z (globalWires.getD 0 0)
  | "s" => g.s (globalWires.getD 0 0)
  | "t" => g.t (globalWires.getD 0 0)
  | "cx" => g.cx (globalWires.getD 0 0) (globalWires.getD 1 0)
  | "cz" => g.cz (globalWires.getD 0 0) (globalWires.getD 1 0)
  | "swap" => g.swap (globalWires.getD 0 0) (globalWires.getD 1 0)
  | "ccx" => g.ccx (globalWires.getD 0 0) (globalWires.getD 1 0) (globalWires.getD 2 0)
  | "rx" => g.rx (options.theta.getD 0) (globalWires.getD 0 0)
  | "ry" => g.ry (options.theta.getD 0) (globalWires.getD 0 0)
  | "rz" => g.rz (options.theta.getD 0) (globalWires.getD 0 0)
  | "measure" =>
    match options.cregBit with
    | Option.some b => g.measure (globalWires.getD 0 0) b
    | Option.none => g
  | _ => g

/-- `translateNodeCircuitToGlobal(nodeCircuit, globalCircuit, offset,
stepOffset)`: for every column, for every wire, replay the cell's gate (if
any) with wires translated by `offset` and the column argument
`col + stepOffset`. -/
def translateNodeCircuitToGlobal (nodeCircuit g : Circuit)
    (offset stepOffset : Nat) : Circuit :=
  (List.range (numCols nodeCircuit)).foldl (fun g col =>
    (List.range nodeCircuit.numQubits).foldl (fun g wire =>
      match cell nodeCircuit wire col with
      | Option.some gate =>
        addGateToGlobalCircuit g gate.name
          ((findGateWires nodeCircuit gate).map (fun w => w + offset))
          (col + stepOffset) gate.options
      | Option.none => g) g) g

/-- `toCircuit()`: empty-network check, offset assignment, the flat circuit
sized `totalQubits × totalQubits`, the H+CX preamble per entanglement, then
each node's local circuit replayed at step offset 2. -/
def toCircuit (net : Network) : Except NetErr Circuit :=
  if net.nodes.isEmpty then Except.error NetErr.emptyNetwork
  else
    let offs := (offsetsAndTotal net.nodes).1
    let totalQubits := (offsetsAndTotal net.nodes).2
    let g0 := emptyCircuit totalQubits totalQubits
    let g1 := net.entanglements.foldl (fun g e =>
      let gq1 := offsetOf offs e.node1Id + e.qubit1
      let gq2 := offsetOf offs e.node2Id + e.qubit2
      (g.h gq1).cx gq1 gq2) g0
    Except.ok (net.nodes.foldl (fun g node =>
      translateNodeCircuitToGlobal node.circuit g (offsetOf offs node.id) 2) g1)

/-- How many gate records one `addGateToGlobalCircuit` call adds: 1 for each
handled unitary name, 1 for `measure` with a classical target, 0 otherwise. -/
def recordsAdded (gateName : String) (options : Options) : Nat :=
  match gateName with
  | "h" => 1
  | "x" => 1
  | "y" => 1
  | "z" => 1
  | "s" => 1
  | "t" => 1
  | "cx" => 1
  | "cz" => 1
  | "swap" => 1
  | "ccx" => 1
  | "rx" => 1
  | "ry" => 1
  | "rz" => 1
  | "measure" =>
    match options.cregBit with
    | Option.some _ => 1
    | Option.none => 0
  | _ => 0

/-- The number of records one grid cell contributes when replayed. -/
def replayCount (nc : Circuit) (cw : Nat × Nat) : Nat :=
  match cell nc cw.2 cw.1 with
  | Option.some g => recordsAdded g.name g.options
  | Option.none => 0

/-- Total records contributed by replaying a node circuit: one per non-empty
cell (counted per CELL, not per distinct gate). -/
def cellReplayCount (nc : Circuit) : Nat :=
  ((gridCoords nc).map (replayCount nc)).sum

theorem addGate_nextId (c : Circuit) (n : String) (col : Int) (ws : List Nat)
    (o : Options) : (addGate c n col ws o).nextId = c.nextId + 1 := rfl

theorem addGateToGlobal_nextId (g : Circuit) (name : String) (ws : List Nat)
    (col : Nat) (opts : Options) :
    (addGateToGlobalCircuit g name ws col opts).nextId =
      g.nextId + recordsAdded name opts := by
  unfold addGateToGlobalCircuit recordsAdded
  split <;> try rfl
  cases opts.cregBit <;> rfl

theorem foldl_replay_nextId (nc : Circuit) (off so : Nat) :
    ∀ (L : List (Nat × Nat)) (g : Circuit),
      (L.foldl (fun g cw =>
        match cell nc cw.2 cw.1 with
        | Option.some gate =>
          addGateToGlobalCircuit g gate.name
            ((findGateWires nc gate).map (fun w => w + off))
            (cw.1 + so) gate.options
        | Option.none => g) g).nextId = g.nextId + (L.map (replayCount nc)).sum := by
  intro L
  induction L with
  | nil => intro g; simp
  | cons cw L ih =>
    intro g
    rw [List.foldl_cons, List.map_cons, List.sum_cons]
    cases hc : cell nc cw.2 cw.1 with
    | none =>
      rw [ih]
      unfold replayCount
      rw [hc]
      dsimp only
      omega
    | some gate =>
      rw [ih]
      unfold replayCount
      rw [hc]
      dsimp only
      rw [addGateToGlobal_nextId]
      omega

theorem translate_nextId (nc g : Circuit) (off so : Nat) :
    (translateNodeCircuitToGlobal nc g off so).nextId =
      g.nextId + cellReplayCount nc := by
  unfold translateNodeCircuitToGlobal cellReplayCount gridCoords
  rw [show (fun (g : Circuit) col =>
      (List.range nc.numQubits).foldl (fun g wire =>
        match cell nc wire col with
        | Option.some gate =>
          addGateToGlobalCircuit g gate.name
            ((findGateWires nc gate).map (fun w => w + off))
            (col + so) gate.options
        | Option.none => g) g) =
      (fun g col => ((List.range nc.numQubits).map (fun wire => (col, wire))).foldl
        (fun g (cw : Nat × Nat) =>
          match cell nc cw.2 cw.1 with
          | Option.some gate =>
            addGateToGlobalCircuit g gate.name
              ((findGateWires nc gate).map (fun w => w + off))
              (cw.1 + so) gate.options
          | Option.none => g) g) from ?_]
  · rw [foldl_flatMap_foldl]
    exact foldl_replay_nextId nc off so _ g
  · funext g col
    rw [List.foldl_map]

theorem entFold_nextId (offs : List (Nat × Nat)) :
    ∀ (es : List Ent) (g : Circuit),
      (es.foldl (fun g e =>
        ((g.h (offsetOf offs e.node1Id + e.qubit1)).cx
          (offsetOf offs e.node1Id + e.qubit1)
          (offsetOf offs e.node2Id + e.qubit2))) g).nextId =
      g.nextId + 2 * es.length := by
  intro es
  induction es with
  | nil => intro g; simp
  | cons e es ih =>
    intro g
    rw [List.foldl_cons, ih, Circuit.cx, addGate_nextId, Circuit.h, addGate_nextId]
    rw [List.length_cons]
    ring

theorem nodesFold_nextId (offs : List (Nat × Nat)) :
    ∀ (ns : List NetNode) (g : Circuit),
      (ns.foldl (fun g node =>
        translateNodeCircuitToGlobal node.circuit g (offsetOf offs node.id) 2)
        g).nextId =
      g.nextId + (ns.map (fun node => cellReplayCount node.circuit)).sum := by
  intro ns
  induction ns with
  | nil => intro g; simp
  | cons node ns ih =>
    intro g
    rw [List.foldl_cons, ih, translate_nextId, List.map_cons, List.sum_cons]
    ring

/-- The single-node network whose local circuit holds one two-wire `cx`. -/
def netC7 : Network := ⟨[⟨0, "A", 2, (emptyCircuit 2 0).cx 0 1⟩], [], 1⟩

/-- Two-node network whose second node (global offset 2) has an `x` on local
wire 1. -/
def netC7b : Network :=
  ⟨[⟨0, "A", 2, emptyCircuit 2 0⟩, ⟨1, "B", 2, (emptyCircuit 2 0).x 1⟩], [], 2⟩

/-- C7 counterexample: the local circuit of `netC7`'s only node holds ONE
`cx` gate record (occupying two cells at column 1).  The claim says each
gate is replayed exactly once at its original column shifted by 2 (column 3).
In fact `toCircuit` emits TWO `cx` records — once per occupied cell — at
columns 1 and 2 of the flat circuit (append mode: the passed column is
ignored), and the flat circuit has no column 3 at all. -/
theorem C7_gate_replayed_once_per_cell_not_once :
    ((emptyCircuit 2 0).cx 0 1).nextId = 1 ∧
    ∃ gc, toCircuit netC7 = Except.ok gc ∧
      gc.nextId = 2 ∧
      cell gc 0 1 = Option.some ⟨"cx", 0, Options.none⟩ ∧
      cell gc 1 1 = Option.some ⟨"cx", 0, Options.none⟩ ∧
      cell gc 0 2 = Option.some ⟨"cx", 1, Options.none⟩ ∧
      cell gc 1 2 = Option.some ⟨"cx", 1, Options.none⟩ ∧
      numCols gc = 3 := by
  refine ⟨rfl, _, rfl, rfl, rfl, rfl, rfl, rfl, rfl⟩

/-- C7 (amended): `toCircuit` replays each node's local circuit once per
non-empty grid CELL (so a k-wire gate is emitted k times), with wire indices
translated by the node's offset; the computed column argument
(original + 2) is passed to `addGateToGlobalCircuit` but ignored — the
replay appends after the flat circuit's current frontier.  Conjuncts: the
column argument never affects the result; the flat circuit's record count is
2 per entanglement plus the per-cell replay count of every node; and on the
two-node `netC7b` the `x` on local wire 1 of the offset-2 node lands on
global wire 3. -/
theorem C7_replay_per_cell_and_column_ignored :
    (∀ (g : Circuit) (name : String) (ws : List Nat) (colA colB : Nat)
        (opts : Options),
      addGateToGlobalCircuit g name ws colA opts =
        addGateToGlobalCircuit g name ws colB opts) ∧
    (∀ net : Network, net.nodes ≠ [] →
      ∃ gc, toCircuit net = Except.ok gc ∧
        gc.nextId = 2 * net.entanglements.length +
          (net.nodes.map (fun node => cellReplayCount node.circuit)).sum) ∧
    (∃ gc, toCircuit netC7b = Except.ok gc ∧
      cell gc 3 1 = Option.some ⟨"x", 0, Options.none⟩) := by
  refine ⟨fun g name ws colA colB opts => rfl, ?_, _, rfl, rfl⟩
  intro net hne
  unfold toCircuit
  rw [if_neg (by rw [List.isEmpty_iff]; exact hne)]
  refine ⟨_, rfl, ?_⟩
  rw [nodesFold_nextId, entFold_nextId]
  have h0 : (emptyCircuit (offsetsAndTotal net.nodes).2
      (offsetsAndTotal net.nodes).2).nextId = 0 := rfl
  rw [h0]
  ring

/-- Witness for C7's amended claim: the record-count characterization applied
to the concrete single-node network `netC7` — one local `cx` across two
cells yields `2·0 + 2 = 2` records. -/
theorem C7_replay_per_cell_and_column_ignored_witness :
    ∃ gc, toCircuit netC7 = Except.ok gc ∧
      gc.nextId = 2 * netC7.entanglements.length +
        (netC7.nodes.map (fun node => cellReplayCount node.circuit)).sum :=
  C7_replay_per_cell_and_column_ignored.2.1 netC7 (by simp [netC7])

end QCNS
